import Mathlib

/-
Verification development for the rustls-pemfile repository
(src/base64.rs, src/pemfile.rs).

The development shallowly embeds the two core components:
  * the incremental base64 decoder (src/base64.rs), and
  * the PEM section scanner / item stream drivers (src/pemfile.rs).

Bytes are modelled as `Nat` (the code works on `u8`; wrap-around is made
explicit with `% 256` at the only place the source can shift bits out,
namely `Quad::convert`).  Fallible operations return `Option`/sum types; a
Rust panic (out-of-bounds slice index) is modelled by a distinct `panic`
result constructor.
-/

namespace Rustls

/-! ## Base64 alphabet tables (src/base64.rs, `Code`, `Standard`, `Pem`) -/

/-- A codepoint classification, mirroring `Code` / `INVALID` / `SKIP` / `PAD`
in src/base64.rs. -/
inductive Code where
  | value (v : Nat)
  | invalid
  | skip
  | pad
deriving DecidableEq, Repr

/-- The 256-entry decode table of the `Standard` alphabet
(`impl Alphabet for Standard`), written as a function on byte values.
Entries: `+` (43) is 62, `/` (47) is 63, `0`-`9` (48-57) are 52-61,
`=` (61) is PAD, `A`-`Z` (65-90) are 0-25, `a`-`z` (97-122) are 26-51,
and every other byte (including all whitespace) is INVALID. -/
def standardTable (b : Nat) : Code :=
  if b = 43 then .value 62
  else if b = 47 then .value 63
  else if 48 ≤ b ∧ b ≤ 57 then .value (b - 48 + 52)
  else if b = 61 then .pad
  else if 65 ≤ b ∧ b ≤ 90 then .value (b - 65)
  else if 97 ≤ b ∧ b ≤ 122 then .value (b - 97 + 26)
  else .invalid

/-- The 256-entry decode table of the `Pem` alphabet
(`impl Alphabet for Pem`): identical to `standardTable`, except that
tab (9), LF (10), VT (11), FF (12), CR (13) and space (32) are SKIP. -/
def pemTable (b : Nat) : Code :=
  if b = 9 ∨ b = 10 ∨ b = 11 ∨ b = 12 ∨ b = 13 then .skip
  else if b = 32 then .skip
  else if b = 43 then .value 62
  else if b = 47 then .value 63
  else if 48 ≤ b ∧ b ≤ 57 then .value (b - 48 + 52)
  else if b = 61 then .pad
  else if 65 ≤ b ∧ b ≤ 90 then .value (b - 65)
  else if 97 ≤ b ∧ b ≤ 122 then .value (b - 97 + 26)
  else .invalid

/-! ## The quad accumulator (src/base64.rs, `struct Quad`) -/

/-- `Quad { codes: [u8; 4], used: usize }`.  `codes` is modelled as a list
(always of length 4 in reachable states). -/
structure Quad where
  codes : List Nat
  used : Nat
deriving DecidableEq, Repr

/-- `Quad::new`. -/
def Quad.new : Quad := ⟨[0, 0, 0, 0], 0⟩

/-- `Quad::add`.  The source writes `self.codes[self.used] = v`; indexing a
`[u8; 4]` with `used ≥ 4` panics in Rust, which is modelled by `none`. -/
def Quad.add (q : Quad) (v : Nat) : Option Quad :=
  if q.used < 4 then some ⟨q.codes.set q.used v, q.used + 1⟩ else none

/-- `Quad::complete`. -/
def Quad.complete (q : Quad) : Bool := q.used == 4

/-- `Quad::convert`: reads the four codes `a b c d`, resets `used` to 0 and
produces the full output triple
`[a << 2 | b >> 4, (b & 0xf) << 4 | c >> 2, (c & 0x3) << 6 | d]`
(`u8` shifts truncate, hence the explicit `% 256`). -/
def Quad.convert (q : Quad) : List Nat × Quad :=
  let a := q.codes.getD 0 0
  let b := q.codes.getD 1 0
  let c := q.codes.getD 2 0
  let d := q.codes.getD 3 0
  ([((a <<< 2) % 256) ||| (b >>> 4),
    (((b &&& 15) <<< 4) % 256) ||| (c >>> 2),
    (((c &&& 3) <<< 6) % 256) ||| d],
   ⟨q.codes, 0⟩)

/-- `Quad::emit_pad`: emits the first `3 - pad` bytes of the converted
triple into the output slice.  `avail` is the length of the output slice
(`out.len()`); `none` models `Err(Error::OutputDoesNotFit)`, raised exactly
when `out.get_mut(..len)` fails, i.e. when `len > avail`.  Note that
`convert` runs (and resets the quad) before the capacity check, exactly as
in the source. -/
def Quad.emit_pad (q : Quad) (pad : Nat) (avail : Nat) : Option (List Nat × Quad) :=
  let len := 3 - pad
  let r := q.convert
  if len ≤ avail then some (r.1.take len, r.2) else none

/-! ## Decoder state and results (src/base64.rs, `State`, `Error`) -/

/-- `enum State { Data, Pad1, Pad2 }`. -/
inductive St where
  | data
  | pad1
  | pad2
deriving DecidableEq, Repr

/-- `enum Error { OutputDoesNotFit, InvalidInput { at_offset } }`. -/
inductive B64Error where
  | outputDoesNotFit
  | invalidInput (at_offset : Nat)
deriving DecidableEq, Repr

/-- Result of running (part of) the decoder: either a Rust panic, an error
(together with the output bytes already written into the caller's buffer
when the error is returned), or success with the final quad, state and the
output bytes written. -/
inductive BRes where
  | panic
  | err (e : B64Error) (written : List Nat)
  | ok (q : Quad) (st : St) (written : List Nat)
deriving DecidableEq, Repr

/-- The implied pad count computed by `Decoder::process` from the final
state (`State::Data => 0, Pad1 => 1, Pad2 => 2`). -/
def padOf : St → Nat
  | .data => 0
  | .pad1 => 1
  | .pad2 => 2

/-- Result of `Quad::emit_final`. -/
inductive ERes where
  | panic
  | invalid
  | noFit
  | ok (bytes : List Nat) (q : Quad)
deriving DecidableEq, Repr

/-- The `for _ in 0..pad { self.add(0) }` loop at the top of
`Quad::emit_final`; `none` models the panic of an out-of-bounds `add`. -/
def padFill (q : Quad) : Nat → Option Quad
  | 0 => some q
  | n + 1 =>
    match q.add 0 with
    | none => none
    | some q' => padFill q' n

/-- Helper mapping `Quad::emit_pad`'s result into an `ERes`. -/
def emitPadE (q : Quad) (pad : Nat) (avail : Nat) : ERes :=
  match q.emit_pad pad avail with
  | some p => .ok p.1 p.2
  | none => .noFit

/-- `Quad::emit_final`: zero-fills `pad` explicit-padding positions, then
matches on `(self.used, pad)`, exactly as the source. -/
def Quad.emit_final (q : Quad) (pad : Nat) (avail : Nat) : ERes :=
  match padFill q pad with
  | none => .panic
  | some q' =>
    match q'.used, pad with
    | 4, 2 => emitPadE q' 2 avail
    | 4, 1 => emitPadE q' 1 avail
    | 4, 0 => emitPadE q' 0 avail
    | 3, 0 =>
      match q'.add 0 with
      | none => .panic
      | some q2 => emitPadE q2 1 avail
    | 2, 0 =>
      match q'.add 0 with
      | none => .panic
      | some q2 =>
        match q2.add 0 with
        | none => .panic
        | some q3 => emitPadE q3 2 avail
    | 0, _ => .ok [] q'
    | _, _ => .invalid

/-- Proof-side twin of `Quad.emit_final` with the `(used, pad)` pattern
match of the source written as an ordered chain of conditions
(`(4,2)|(4,1)|(4,0)` then `(3,0)` then `(2,0)` then `(0,_)` then the
default); proved equal to `Quad.emit_final` below. -/
def emitFinalIf (q : Quad) (pad : Nat) (avail : Nat) : ERes :=
  match padFill q pad with
  | none => .panic
  | some q' =>
    if q'.used = 4 ∧ pad ≤ 2 then emitPadE q' pad avail
    else if q'.used = 3 ∧ pad = 0 then
      match q'.add 0 with
      | none => .panic
      | some q2 => emitPadE q2 1 avail
    else if q'.used = 2 ∧ pad = 0 then
      match q'.add 0 with
      | none => .panic
      | some q2 =>
        match q2.add 0 with
        | none => .panic
        | some q3 => emitPadE q3 2 avail
    else if q'.used = 0 then .ok [] q'
    else .invalid

/-! ## `Decoder::process` (src/base64.rs, lines 650-684)

`goB` is the byte loop of `process` with an output buffer of capacity
`cap`; `i` is the `enumerate` index used for `InvalidInput { at_offset }`,
`w` the bytes written so far (`output[..offs]`).  Note the source's match
arm `(State::Data, Code(v))` precedes `(_, INVALID)`, and `Code` is a
tuple struct with `INVALID = Code(128)`: in state `Data` an INVALID table
entry is matched as a value and `self.quad.add(128)` runs, decoding
continuing; the `InvalidInput` arm is reachable only in the `Pad1`/`Pad2`
states.  `goU` is the same loop
against an unbounded output buffer, used as a proof intermediate: its
emits always fit (each single emission needs at most 3 free slots, so it
behaves as `goB` with an always-sufficient remainder; the `noFit` branches
are unreachable, as proved below). -/

def goB (t : Nat → Code) (cap : Nat) (last : Bool) :
    List Nat → Nat → Quad → St → List Nat → BRes
  | [], _, q, st, w =>
    if last then
      match q.emit_final (padOf st) (cap - w.length) with
      | .panic => .panic
      | .invalid => .err (.invalidInput 0) w
      | .noFit => .err .outputDoesNotFit w
      | .ok bs q' => .ok q' st (w ++ bs)
    else .ok q st w
  | b :: rest, i, q, st, w =>
    match st, t b with
    | _, .skip => goB t cap last rest (i + 1) q st w
    | .data, .pad =>
      if q.complete then
        match q.emit_pad 0 (cap - w.length) with
        | some p => goB t cap last rest (i + 1) p.2 .pad1 (w ++ p.1)
        | none => .err .outputDoesNotFit w
      else goB t cap last rest (i + 1) q .pad1 w
    | .pad1, .pad =>
      if q.complete then
        match q.emit_pad 0 (cap - w.length) with
        | some p => goB t cap last rest (i + 1) p.2 .pad2 (w ++ p.1)
        | none => .err .outputDoesNotFit w
      else goB t cap last rest (i + 1) q .pad2 w
    | .data, .value v =>
      match q.add v with
      | none => .panic
      | some q' =>
        if q'.complete then
          match q'.emit_pad 0 (cap - w.length) with
          | some p => goB t cap last rest (i + 1) p.2 .data (w ++ p.1)
          | none => .err .outputDoesNotFit w
        else goB t cap last rest (i + 1) q' .data w
    | .data, .invalid =>
      match q.add 128 with
      | none => .panic
      | some q' =>
        if q'.complete then
          match q'.emit_pad 0 (cap - w.length) with
          | some p => goB t cap last rest (i + 1) p.2 .data (w ++ p.1)
          | none => .err .outputDoesNotFit w
        else goB t cap last rest (i + 1) q' .data w
    | _, _ => .err (.invalidInput i) w

def goU (t : Nat → Code) (last : Bool) :
    List Nat → Nat → Quad → St → List Nat → BRes
  | [], _, q, st, w =>
    if last then
      match q.emit_final (padOf st) 3 with
      | .panic => .panic
      | .invalid => .err (.invalidInput 0) w
      | .noFit => .err .outputDoesNotFit w
      | .ok bs q' => .ok q' st (w ++ bs)
    else .ok q st w
  | b :: rest, i, q, st, w =>
    match st, t b with
    | _, .skip => goU t last rest (i + 1) q st w
    | .data, .pad =>
      if q.complete then
        match q.emit_pad 0 3 with
        | some p => goU t last rest (i + 1) p.2 .pad1 (w ++ p.1)
        | none => .err .outputDoesNotFit w
      else goU t last rest (i + 1) q .pad1 w
    | .pad1, .pad =>
      if q.complete then
        match q.emit_pad 0 3 with
        | some p => goU t last rest (i + 1) p.2 .pad2 (w ++ p.1)
        | none => .err .outputDoesNotFit w
      else goU t last rest (i + 1) q .pad2 w
    | .data, .value v =>
      match q.add v with
      | none => .panic
      | some q' =>
        if q'.complete then
          match q'.emit_pad 0 3 with
          | some p => goU t last rest (i + 1) p.2 .data (w ++ p.1)
          | none => .err .outputDoesNotFit w
        else goU t last rest (i + 1) q' .data w
    | .data, .invalid =>
      match q.add 128 with
      | none => .panic
      | some q' =>
        if q'.complete then
          match q'.emit_pad 0 3 with
          | some p => goU t last rest (i + 1) p.2 .data (w ++ p.1)
          | none => .err .outputDoesNotFit w
        else goU t last rest (i + 1) q' .data w
    | _, _ => .err (.invalidInput i) w

/-! ## The decoder API (src/base64.rs, `Decoder`, `decode`, `decode_into_vec`) -/

/-- `struct Decoder`. -/
structure Decoder where
  table : Nat → Code
  quad : Quad
  state : St

/-- `Decoder::new`. -/
def Decoder.new (t : Nat → Code) : Decoder := ⟨t, Quad.new, .data⟩

/-- `Decoder::process`; `cap` is `output.len()`. -/
def Decoder.process (d : Decoder) (input : List Nat) (cap : Nat) (last : Bool) : BRes :=
  goB d.table cap last input 0 d.quad d.state []

/-- `Decoder::update`. -/
def Decoder.update (d : Decoder) (input : List Nat) (cap : Nat) : BRes :=
  d.process input cap false

/-- `Decoder::finish`. -/
def Decoder.finish (d : Decoder) (input : List Nat) (cap : Nat) : BRes :=
  d.process input cap true

/-- The one-shot `decode(alphabet, input, output)` = `new` + `finish`. -/
def decode (t : Nat → Code) (input : List Nat) (cap : Nat) : BRes :=
  (Decoder.new t).finish input cap

/-- `decode_len_estimate`. -/
def decode_len_estimate (input_len : Nat) : Nat := ((input_len + 3) / 4) * 3

/-- `decode_into_vec`: allocates `decode_len_estimate` bytes, decodes, and
truncates to the written length (the `written` list of the result is
exactly the truncated vector). -/
def decode_into_vec (t : Nat → Code) (input : List Nat) : BRes :=
  decode t input (decode_len_estimate input.length)

/-- The unbounded-output analogue of `decode`, a proof intermediate. -/
def decodeU (t : Nat → Code) (input : List Nat) : BRes :=
  goU t true input 0 Quad.new .data []

/-- ASCII bytes of a string literal (used for concrete inputs and for the
PEM marker constants below). -/
def bytesOf (s : String) : List Nat := s.data.map (fun c => c.toNat)

/-- Whether an `ERes` is a success. -/
def ERes.isOk : ERes → Bool
  | .ok _ _ => true
  | _ => false

/-- Whether a `BRes` is a success. -/
def BRes.isOk : BRes → Bool
  | .ok _ _ _ => true
  | _ => false

/-- Constructor kind of a base64 error (used to compare errors that may
differ only in their `at_offset` payload). -/
def errKind : B64Error → Nat
  | .outputDoesNotFit => 0
  | .invalidInput _ => 1

/-- Similarity of two decoder results: equal up to the `at_offset` payload
of an `InvalidInput` error. -/
def simB : BRes → BRes → Prop
  | .panic, .panic => True
  | .err e1 w1, .err e2 w2 => errKind e1 = errKind e2 ∧ w1 = w2
  | .ok q1 s1 w1, .ok q2 s2 w2 => q1 = q2 ∧ s1 = s2 ∧ w1 = w2
  | _, _ => False

/-! ## PEM items and errors (src/pemfile.rs, `Item`, `Error`) -/

/-- `enum Item` of src/pemfile.rs; each variant owns the decoded DER
payload. -/
inductive Item where
  | x509Certificate (der : List Nat)
  | subjectPublicKeyInfo (der : List Nat)
  | pkcs1Key (der : List Nat)
  | pkcs8Key (der : List Nat)
  | sec1Key (der : List Nat)
  | crl (der : List Nat)
  | csr (der : List Nat)
deriving DecidableEq, Repr

/-- `enum Error` of src/pemfile.rs.  `Base64Decode` carries the underlying
decoder error (the source formats it into a `String`). -/
inductive PemError where
  | missingSectionEnd (end_marker : List Nat)
  | illegalSectionStart (line : List Nat)
  | base64Decode (e : B64Error)
deriving DecidableEq, Repr

/-- Constructor kind of a PEM error. -/
def PemError.kind : PemError → Nat
  | .missingSectionEnd _ => 0
  | .illegalSectionStart _ => 1
  | .base64Decode _ => 2

/-- Result of a PEM-level operation: Rust panic, error, or value. -/
inductive PR (α : Type) where
  | panic
  | err (e : PemError)
  | ok (a : α)
deriving DecidableEq, Repr

/-- `ControlFlow<Option<Item>, ()>` as used by `read_one_impl`. -/
inductive Flow where
  | cont
  | brk (item : Option Item)
deriving DecidableEq, Repr

/-- The bytes of `b"-----BEGIN "`. -/
def beginMarker : List Nat := [45, 45, 45, 45, 45, 66, 69, 71, 73, 78, 32]

/-- Builds `b"-----END " ++ ty ++ b"-----"` (src/pemfile.rs lines
191-194); `[45,45,45,45,45,69,78,68,32]` is `b"-----END "`. -/
def mkEndMarker (ty : List Nat) : List Nat :=
  [45, 45, 45, 45, 45, 69, 78, 68, 32] ++ ty ++ [45, 45, 45, 45, 45]

/-- The reverse scan of a BEGIN line (src/pemfile.rs lines 172-182):
iterates the line from its end; a `-` increments `trailer` and records its
index in `pos`; LF, CR and space are skipped; any other byte stops the
scan.  The arguments are the reversed remaining bytes, the index just past
the current byte, and the current `trailer`/`pos`. -/
def scanRev : List Nat → Nat → Nat → Nat → Nat × Nat
  | [], _, trailer, pos => (trailer, pos)
  | b :: rest, i, trailer, pos =>
    if b = 45 then scanRev rest (i - 1) (trailer + 1) (i - 1)
    else if b = 10 ∨ b = 13 ∨ b = 32 then scanRev rest (i - 1) trailer pos
    else (trailer, pos)

/-- `(trailer, pos)` for a candidate BEGIN line; `pos` starts at
`line.len()`. -/
def beginTrailer (line : List Nat) : Nat × Nat :=
  scanRev line.reverse line.length 0 line.length

/-- Modelled from the spec: `base64::decoded_length` is called by
src/pemfile.rs but is not part of this snapshot's src/base64.rs (which
has `decode_len_estimate` instead).  Per spec §4.2 it is the upper bound
`ceil(input_len/4)*3`. -/
def decoded_length (input_len : Nat) : Nat := ((input_len + 3) / 4) * 3

/-- Modelled from the spec: `base64::decode_secret` is called by
src/pemfile.rs for private-key sections but is not part of this
snapshot's src/base64.rs.  Per spec §4.3 and §9 it is a one-shot decode of
the section body with the tolerant (PEM) alphabet into a buffer of
`decoded_length` bytes (zeroization of the buffer is not observable
here). -/
def decode_secret (input : List Nat) : BRes :=
  decode pemTable input (decoded_length input.length)

/-- Modelled from the spec: `base64::decode_public`, as `decode_secret`
but for non-secret sections; behaviourally the same one-shot tolerant
decode. -/
def decode_public (input : List Nat) : BRes :=
  decode pemTable input (decoded_length input.length)

/-- The `match &section_type[..]` choosing `decode_secret` over
`decode_public` (src/pemfile.rs lines 203-208). -/
def isSecretLabel (ty : List Nat) : Bool :=
  ty == bytesOf "RSA PRIVATE KEY" || ty == bytesOf "PRIVATE KEY"
    || ty == bytesOf "EC PRIVATE KEY"

/-- The label dispatch table of src/pemfile.rs lines 213-226. -/
def itemFor (ty : List Nat) (der : List Nat) : Option Item :=
  if ty = bytesOf "CERTIFICATE" then some (.x509Certificate der)
  else if ty = bytesOf "PUBLIC KEY" then some (.subjectPublicKeyInfo der)
  else if ty = bytesOf "RSA PRIVATE KEY" then some (.pkcs1Key der)
  else if ty = bytesOf "PRIVATE KEY" then some (.pkcs8Key der)
  else if ty = bytesOf "EC PRIVATE KEY" then some (.sec1Key der)
  else if ty = bytesOf "X509 CRL" then some (.crl der)
  else if ty = bytesOf "CERTIFICATE REQUEST" then some (.csr der)
  else none

/-- `read_one_impl` (src/pemfile.rs lines 156-239).  `next_line` is `None`
at end of input; `sect` is the open-section state `(section_type,
end_marker)`; `b64buf` the accumulated body.  The result carries the
control flow decision and the updated `sect`/`b64buf`. -/
def read_one_impl (next_line : Option (List Nat)) (sect : Option (List Nat × List Nat))
    (b64buf : List Nat) : PR (Flow × Option (List Nat × List Nat) × List Nat) :=
  match next_line with
  | none =>
    match sect with
    | some (_, em) => .err (.missingSectionEnd em)
    | none => .ok (.brk none, none, b64buf)
  | some line =>
    if beginMarker.isPrefixOf line then
      let tp := beginTrailer line
      if tp.1 ≠ 5 then .err (.illegalSectionStart line)
      else
        let ty := (line.take tp.2).drop 11
        .ok (.cont, some (ty, mkEndMarker ty), b64buf)
    else
      match sect with
      | some (ty, em) =>
        if em.isPrefixOf line then
          match (if isSecretLabel ty then decode_secret b64buf else decode_public b64buf) with
          | .panic => .panic
          | .err e _ => .err (.base64Decode e)
          | .ok _ _ der =>
            match itemFor ty der with
            | some item => .ok (.brk (some item), some (ty, em), b64buf)
            | none => .ok (.cont, none, [])
        else .ok (.cont, some (ty, em), b64buf ++ line)
      | none => .ok (.cont, none, b64buf)

/-! ## The two line-splitting disciplines

`read_one_from_slice` splits its input at each `\n`, the line being the
bytes strictly before it; bytes after the last `\n` are never offered as a
line (the `position` search fails and `next_line` becomes `None`).
`read_one` (over a `BufRead` of the same bytes) uses `read_until_newline`,
which returns each chunk up to and including the first `\n` or `\r`, and
at end of input returns the remaining bytes as a final (unterminated)
line.  The splitters below precompute the successive `(line, remainder)`
pairs of these two loops. -/

def sliceSplits : List Nat → List (List Nat × List Nat)
  | [] => []
  | b :: r =>
    if b = 10 then ([], r) :: sliceSplits r
    else
      match sliceSplits r with
      | [] => []
      | (l, rest) :: ls => (b :: l, rest) :: ls

def streamSplits : List Nat → List (List Nat × List Nat)
  | [] => []
  | b :: r =>
    if b = 10 ∨ b = 13 then ([b], r) :: streamSplits r
    else
      match streamSplits r with
      | [] => [([b], [])]
      | (l, rest) :: ls => (b :: l, rest) :: ls

/-- The loop of `read_one_from_slice` (src/pemfile.rs lines 84-102) over
the precomputed `(line, remainder)` pairs.  When the pairs are exhausted,
no further `\n` exists and `next_line` is `None`.  (At end of input
`read_one_impl` can only break with `None` or fail, so the remainder
paired with a break there is never observed.) -/
def sliceCall : List (List Nat × List Nat) → Option (List Nat × List Nat) → List Nat →
    PR (Option (Item × List Nat))
  | [], sect, buf =>
    match read_one_impl none sect buf with
    | .panic => .panic
    | .err e => .err e
    | .ok (.brk item, _, _) => .ok (item.map (fun it => (it, [])))
    | .ok (.cont, _, _) => .ok none
  | (l, rest) :: more, sect, buf =>
    match read_one_impl (some l) sect buf with
    | .panic => .panic
    | .err e => .err e
    | .ok (.brk item, _, _) => .ok (item.map (fun it => (it, rest)))
    | .ok (.cont, s2, b2) => sliceCall more s2 b2

/-- `read_one_from_slice`. -/
def read_one_from_slice (input : List Nat) : PR (Option (Item × List Nat)) :=
  sliceCall (sliceSplits input) none []

/-- The loop of `read_one` (src/pemfile.rs lines 112-154) over the stream
line splits; the result also carries the reader's remaining bytes.  A
zero-length read (exhausted splits) makes `next_line` `None`. -/
def streamCall : List (List Nat × List Nat) → Option (List Nat × List Nat) → List Nat →
    PR (Option Item × List Nat)
  | [], sect, buf =>
    match read_one_impl none sect buf with
    | .panic => .panic
    | .err e => .err e
    | .ok (.brk item, _, _) => .ok (item, [])
    | .ok (.cont, _, _) => .ok (none, [])
  | (l, rest) :: more, sect, buf =>
    match read_one_impl (some l) sect buf with
    | .panic => .panic
    | .err e => .err e
    | .ok (.brk item, _, _) => .ok (item, rest)
    | .ok (.cont, s2, b2) => streamCall more s2 b2

/-- `read_one` over a reader holding `input`. -/
def read_one (input : List Nat) : PR (Option Item × List Nat) :=
  streamCall (streamSplits input) none []

/-! ## Item stream drivers (`iter::from_fn(|| read_one(rd).transpose())`) -/

/-- How an item stream ends. -/
inductive Terminal where
  | eof
  | errored (e : PemError)
  | panicked
  | outOfFuel
deriving DecidableEq, Repr

/-- Constructor kind of a `Terminal` (collapses error payloads). -/
def Terminal.kind : Terminal → Nat
  | .eof => 0
  | .errored _ => 1
  | .panicked => 2
  | .outOfFuel => 3

/-- Repeatedly pull items with `read_one_from_slice`, threading the
remainder.  The fuel is structural bookkeeping only: every produced item
consumes at least one input byte, so `input.length + 1` calls always
suffice (see `itemsSliceGo_fuel` below). -/
def itemsSliceGo : Nat → List Nat → List Item × Terminal
  | 0, _ => ([], .outOfFuel)
  | fuel + 1, input =>
    match read_one_from_slice input with
    | .panic => ([], .panicked)
    | .err e => ([], .errored e)
    | .ok none => ([], .eof)
    | .ok (some (it, rest)) =>
      let r := itemsSliceGo fuel rest
      (it :: r.1, r.2)

/-- The item stream over a byte slice. -/
def itemsSlice (input : List Nat) : List Item × Terminal :=
  itemsSliceGo (input.length + 1) input

/-- Repeatedly pull items with `read_one`, threading the reader
remainder. -/
def itemsStreamGo : Nat → List Nat → List Item × Terminal
  | 0, _ => ([], .outOfFuel)
  | fuel + 1, input =>
    match read_one input with
    | .panic => ([], .panicked)
    | .err e => ([], .errored e)
    | .ok (none, _) => ([], .eof)
    | .ok (some it, rest) =>
      let r := itemsStreamGo fuel rest
      (it :: r.1, r.2)

/-- The item stream over a stream reader. -/
def itemsStream (input : List Nat) : List Item × Terminal :=
  itemsStreamGo (input.length + 1) input

/-! ## Renderers and well-formedness used in theorem statements -/

/-- Bytes of a sequence of LF-terminated lines. -/
def renderLines (ls : List (List Nat)) : List Nat :=
  (ls.map (fun l => l ++ [10])).flatten

/-- A PEM section as described by the spec grammar (§6): a label and the
base64 body lines. -/
structure PemSection where
  label : List Nat
  body : List (List Nat)
deriving DecidableEq, Repr

/-- The BEGIN line for a label: `b"-----BEGIN " ++ label ++ b"-----"`. -/
def beginLineFor (label : List Nat) : List Nat :=
  beginMarker ++ label ++ [45, 45, 45, 45, 45]

def beginLineOf (s : PemSection) : List Nat := beginLineFor s.label

def sectionLines (s : PemSection) : List (List Nat) :=
  beginLineOf s :: (s.body ++ [mkEndMarker s.label])

def renderSections (secs : List PemSection) : List Nat :=
  renderLines ((secs.map sectionLines).flatten)

/-- A label that renders into a BEGIN line the scanner parses back to the
same label: it contains no line terminator, and does not end in `-` or
space (which would confuse the trailing-hyphen scan). -/
def wfLabel (label : List Nat) : Prop :=
  10 ∉ label ∧ 13 ∉ label ∧ label.getLast? ≠ some 45 ∧ label.getLast? ≠ some 32

/-- A body line of a section with end marker `em`: no line terminator, and
not mistakable for a BEGIN line or for the section's END line. -/
def wfBodyLine (em : List Nat) (l : List Nat) : Prop :=
  10 ∉ l ∧ 13 ∉ l ∧ beginMarker.isPrefixOf l = false ∧ em.isPrefixOf l = false

/-- Well-formed section: label and body lines are well-formed and the
accumulated body decodes successfully. -/
def wfSection (s : PemSection) : Prop :=
  wfLabel s.label ∧ (∀ l ∈ s.body, wfBodyLine (mkEndMarker s.label) l)
    ∧ (decode_public s.body.flatten).isOk = true

instance (label : List Nat) : Decidable (wfLabel label) := by
  unfold wfLabel
  infer_instance

instance (em l : List Nat) : Decidable (wfBodyLine em l) := by
  unfold wfBodyLine
  infer_instance

instance (s : PemSection) : Decidable (wfSection s) := by
  unfold wfSection wfLabel wfBodyLine
  infer_instance

/-- The decoded payload of a well-formed section. -/
def bodyDerOf (s : PemSection) : List Nat :=
  match decode_public s.body.flatten with
  | .ok _ _ w => w
  | _ => []

/-- Spec-side dispatch table (§4.3 of the spec): `CERTIFICATE` →
Certificate, `PUBLIC KEY` → SubjectPublicKeyInfo, `RSA PRIVATE KEY` →
Pkcs1Key, `PRIVATE KEY` → Pkcs8Key, `EC PRIVATE KEY` → Sec1Key,
`X509 CRL` → Crl, `CERTIFICATE REQUEST` → Csr, anything else → no item. -/
def specItemFor (label : List Nat) (der : List Nat) : Option Item :=
  if label = bytesOf "CERTIFICATE" then some (.x509Certificate der)
  else if label = bytesOf "PUBLIC KEY" then some (.subjectPublicKeyInfo der)
  else if label = bytesOf "RSA PRIVATE KEY" then some (.pkcs1Key der)
  else if label = bytesOf "PRIVATE KEY" then some (.pkcs8Key der)
  else if label = bytesOf "EC PRIVATE KEY" then some (.sec1Key der)
  else if label = bytesOf "X509 CRL" then some (.crl der)
  else if label = bytesOf "CERTIFICATE REQUEST" then some (.csr der)
  else none

/-- Items the spec expects from a section list. -/
def expectedItems (secs : List PemSection) : List Item :=
  secs.filterMap (fun s => specItemFor s.label (bodyDerOf s))

/-- Prepend already-written output to a decoder result (proof helper for
relating runs that start with different amounts of written output). -/
def BRes.reW (pre : List Nat) : BRes → BRes
  | .panic => .panic
  | .err e w => .err e (pre ++ w)
  | .ok q st w => .ok q st (pre ++ w)

/-- The success part of a decoder result. -/
def BRes.okP : BRes → Option (Quad × St × List Nat)
  | .ok q st w => some (q, st, w)
  | _ => none

/-- Feeding a decoder one byte at a time via `update` (each call with a
fresh 3-byte output buffer, enough for any single completed triple),
concatenating all outputs, then calling `finish` with empty input
(claim C5's incremental protocol).  `none` models any error or panic
along the way. -/
def chainGo (t : Nat → Code) : List Nat → Quad → St → List Nat → Option (List Nat)
  | [], q, st, acc =>
    match Decoder.finish ⟨t, q, st⟩ [] 3 with
    | .ok _ _ w => some (acc ++ w)
    | _ => none
  | b :: bs, q, st, acc =>
    match Decoder.update ⟨t, q, st⟩ [b] 3 with
    | .ok q2 st2 w => chainGo t bs q2 st2 (acc ++ w)
    | _ => none

/-- One-byte-at-a-time incremental decode of a whole input. -/
def chainDecode (t : Nat → Code) (input : List Nat) : Option (List Nat) :=
  chainGo t input Quad.new .data []

/-- Classification of one loop iteration of `Decoder::process` (a proof
device): what the iteration does to the decoder state, before the output
capacity is consulted. -/
inductive StepRes where
  | skipped
  | failed
  | panicked
  | moved (q2 : Quad) (st2 : St)
  | emitted (q2 : Quad) (st2 : St)
deriving DecidableEq, Repr

/-- Classifies the processing of byte `b` in state `(q, st)`: `skipped`
(table says SKIP), `failed` (`InvalidInput`), `panicked` (out-of-bounds
`Quad::add`), `moved q2 st2` (state advanced, no full quad), or
`emitted q2 st2` (the quad `q2` completed and its triple is emitted).
As in `goB`/`goU`, an INVALID table entry in state `Data` is matched by
the source's `Code(v)` pattern and adds the raw value 128. -/
def classify (t : Nat → Code) (b : Nat) (q : Quad) (st : St) : StepRes :=
  match st, t b with
  | _, .skip => .skipped
  | .data, .pad => if q.complete then .emitted q .pad1 else .moved q .pad1
  | .pad1, .pad => if q.complete then .emitted q .pad2 else .moved q .pad2
  | .data, .value v =>
    match q.add v with
    | none => .panicked
    | some q2 => if q2.complete then .emitted q2 .data else .moved q2 .data
  | .data, .invalid =>
    match q.add 128 with
    | none => .panicked
    | some q2 => if q2.complete then .emitted q2 .data else .moved q2 .data
  | _, _ => .failed

/-- The bytes of an input that the alphabet table does not SKIP (a proof
device: the decoder's observable behaviour depends only on these). -/
def filterNS (t : Nat → Code) (input : List Nat) : List Nat :=
  input.filter (fun b => !(decide (t b = Code.skip)))

/-- Invariant on the scanner's open-section state: the recorded end marker
contains no line feed (true of every marker the scanner builds from a
LF-free BEGIN line). -/
def sectOk : Option (List Nat × List Nat) → Prop
  | none => True
  | some (_, em) => 10 ∉ em

/-! ## Arithmetic helpers for the quad numeric semantics -/

lemma lor_mul4 : ∀ x : Fin 64, ∀ r : Fin 4, (4 * x.val) ||| r.val = 4 * x.val + r.val := by
  decide

lemma lor_mul16 : ∀ x : Fin 16, ∀ r : Fin 16, (16 * x.val) ||| r.val = 16 * x.val + r.val := by
  decide

lemma lor_mul64 : ∀ x : Fin 4, ∀ r : Fin 64, (64 * x.val) ||| r.val = 64 * x.val + r.val := by
  decide

lemma and15_mod : ∀ b : Fin 64, b.val &&& 15 = b.val % 16 := by decide

lemma and3_mod : ∀ c : Fin 64, c.val &&& 3 = c.val % 4 := by decide

lemma shl2_mod (a : Nat) (ha : a < 64) : (a <<< 2) % 256 = a <<< 2 := by
  rw [Nat.shiftLeft_eq]
  norm_num
  omega

lemma shl4_mod (b : Nat) : ((b &&& 15) <<< 4) % 256 = (b &&& 15) <<< 4 := by
  have h : b &&& 15 ≤ 15 := Nat.and_le_right
  rw [Nat.shiftLeft_eq]
  norm_num
  omega

lemma shl6_mod (c : Nat) : ((c &&& 3) <<< 6) % 256 = (c &&& 3) <<< 6 := by
  have h : c &&& 3 ≤ 3 := Nat.and_le_right
  rw [Nat.shiftLeft_eq]
  norm_num
  omega

lemma byte0_add (a b : Nat) (ha : a < 64) (hb : b < 64) :
    (a <<< 2) ||| (b >>> 4) = 4 * a + b / 16 := by
  have h1 : a <<< 2 = 4 * a := by rw [Nat.shiftLeft_eq]; ring
  have h2 : b >>> 4 = b / 16 := by rw [Nat.shiftRight_eq_div_pow]
  rw [h1, h2]
  exact lor_mul4 ⟨a, ha⟩ ⟨b / 16, by omega⟩

lemma byte1_add (b c : Nat) (hb : b < 64) (hc : c < 64) :
    ((b &&& 15) <<< 4) ||| (c >>> 2) = 16 * (b % 16) + c / 4 := by
  have h15 : b &&& 15 = b % 16 := and15_mod ⟨b, hb⟩
  have h1 : (b % 16) <<< 4 = 16 * (b % 16) := by rw [Nat.shiftLeft_eq]; ring
  have h2 : c >>> 2 = c / 4 := by rw [Nat.shiftRight_eq_div_pow]
  rw [h15, h1, h2]
  exact lor_mul16 ⟨b % 16, by omega⟩ ⟨c / 4, by omega⟩

lemma byte2_add (c d : Nat) (hc : c < 64) (hd : d < 64) :
    ((c &&& 3) <<< 6) ||| d = 64 * (c % 4) + d := by
  have h3 : c &&& 3 = c % 4 := and3_mod ⟨c, hc⟩
  have h1 : (c % 4) <<< 6 = 64 * (c % 4) := by rw [Nat.shiftLeft_eq]; ring
  rw [h3, h1]
  exact lor_mul64 ⟨c % 4, by omega⟩ ⟨d, hd⟩

/-! ## Claim C1 -/

/-- C1: for every completed quad of 6-bit values `(a,b,c,d)`, the decoder
emits `byte0 = a<<2 | b>>4`, `byte1 = (b&0xF)<<4 | c>>2`,
`byte2 = (c&0x3)<<6 | d` (`Quad::convert` via `Quad::emit_pad` with
`pad = 0`); a quad finalized with 1 explicit pad (`Quad::emit_final` with
3 accumulated values and `pad = 1`) emits only `byte0, byte1`, and a quad
finalized with 2 pads (2 accumulated values, `pad = 2`) emits only
`byte0`.  The last conjunct restates the three bytes in plain arithmetic
form. -/
theorem c1_quad_numeric_semantics :
    ∀ a b c d : Nat, a < 64 → b < 64 → c < 64 → d < 64 →
      Quad.emit_pad ⟨[a, b, c, d], 4⟩ 0 3
          = some ([(a <<< 2) ||| (b >>> 4), ((b &&& 15) <<< 4) ||| (c >>> 2),
                   ((c &&& 3) <<< 6) ||| d], ⟨[a, b, c, d], 0⟩)
      ∧ Quad.emit_final ⟨[a, b, c, d], 3⟩ 1 3
          = .ok [(a <<< 2) ||| (b >>> 4), ((b &&& 15) <<< 4) ||| (c >>> 2)] ⟨[a, b, c, 0], 0⟩
      ∧ Quad.emit_final ⟨[a, b, c, d], 2⟩ 2 3
          = .ok [(a <<< 2) ||| (b >>> 4)] ⟨[a, b, 0, 0], 0⟩
      ∧ [(a <<< 2) ||| (b >>> 4), ((b &&& 15) <<< 4) ||| (c >>> 2), ((c &&& 3) <<< 6) ||| d]
          = [4 * a + b / 16, 16 * (b % 16) + c / 4, 64 * (c % 4) + d] := by
  intro a b c d ha hb hc hd
  refine ⟨?_, ?_, ?_, ?_⟩
  · simp [Quad.emit_pad, Quad.convert, List.getD, shl2_mod a ha, shl4_mod b, shl6_mod c,
      List.take]
  · simp [Quad.emit_final, padFill, Quad.add, emitPadE, Quad.emit_pad, Quad.convert,
      List.getD, List.set, shl2_mod a ha, shl4_mod b, List.take]
  · simp [Quad.emit_final, padFill, Quad.add, emitPadE, Quad.emit_pad, Quad.convert,
      List.getD, List.set, shl2_mod a ha, List.take]
  · simp [byte0_add a b ha hb, byte1_add b c hb hc, byte2_add c d hc hd]

/-- Witness for C1 at the concrete quad `(26, 26, 26, 26)` (input
`"aaaa"`, which decodes to `0x69 0xa6 0x9a`). -/
theorem c1_quad_numeric_semantics_witness :
    Quad.emit_pad ⟨[26, 26, 26, 26], 4⟩ 0 3
      = some ([(26 <<< 2) ||| (26 >>> 4), ((26 &&& 15) <<< 4) ||| (26 >>> 2),
               ((26 &&& 3) <<< 6) ||| 26], ⟨[26, 26, 26, 26], 0⟩) :=
  (c1_quad_numeric_semantics 26 26 26 26 (by decide) (by decide) (by decide) (by decide)).1

/-! ## Claim C2 -/

/-- C2: characterization of `Quad::emit_final` on the states reachable at
`finish` time (`used ≤ 3` accumulated values, `pad ≤ 2` explicit pad
symbols, output with at least 3 free bytes).  It succeeds exactly for the
combinations `(0,0), (2,0), (3,0), (3,1), (2,2)` of (values, pads); but
contrary to the claim, the inconsistent combination of 3 values with 2
explicit pads (input such as `"AAA=="`) does not fail with
`InvalidInput`: the zero-fill loop writes past the end of the 4-byte
`codes` array, a Rust panic.  All other combinations fail with
`InvalidInput`. -/
theorem c2_finish_acceptance :
    (∀ (cs : List Nat) (u p : Nat), u ≤ 3 → p ≤ 2 →
      ((Quad.emit_final ⟨cs, u⟩ p 3).isOk = true ↔
        ((u, p) = (0, 0) ∨ (u, p) = (2, 0) ∨ (u, p) = (3, 0) ∨ (u, p) = (3, 1)
          ∨ (u, p) = (2, 2)))
      ∧ (Quad.emit_final ⟨cs, u⟩ p 3 = .panic ↔ (u, p) = (3, 2)))
    ∧ decode_into_vec standardTable (bytesOf "AAA==") = .panic := by
  constructor
  · intro cs u p hu hp
    interval_cases u <;> interval_cases p <;>
      simp [Quad.emit_final, padFill, Quad.add, emitPadE, Quad.emit_pad, Quad.convert,
        ERes.isOk, Prod.ext_iff]
  · decide

/-- Witness for C2: the combination of 3 accumulated values and 2 explicit
pads makes `emit_final` panic. -/
theorem c2_finish_acceptance_witness :
    Quad.emit_final ⟨[0, 0, 0, 0], 3⟩ 2 3 = .panic :=
  (c2_finish_acceptance.1 [0, 0, 0, 0] 3 2 (by decide) (by decide)).2.mpr rfl

/-! ## Claim C3 -/

/-- C3: the claim that decoding never panics (all `Quad::add` writes stay
in bounds) is violated: the one-shot decode of `"AAA=="` (3 values
followed by 2 explicit pads) reaches `Quad::add` with `used = 4` inside
`emit_final`'s zero-fill loop, an out-of-bounds write on the `[u8; 4]`
`codes` array, i.e. a Rust panic. -/
theorem c3_decode_panics_on_three_values_two_pads :
    decode_into_vec standardTable (bytesOf "AAA==") = .panic
      ∧ Decoder.finish (Decoder.new standardTable) (bytesOf "AAA==") 3 = .panic := by
  constructor
  · decide
  · decide

/-! ## Transfer lemmas between the bounded and unbounded decoder loops -/

lemma convert_len (q : Quad) : (q.convert).1.length = 3 := rfl

lemma emit_pad_zero (q : Quad) (avail : Nat) (h : 3 ≤ avail) :
    q.emit_pad 0 avail = some ((q.convert).1, (q.convert).2) := by
  have ht : (q.convert).1.take 3 = (q.convert).1 :=
    List.take_of_length_le (convert_len q).le
  simp [Quad.emit_pad, h, ht]

lemma reW_reW (a b : List Nat) (r : BRes) : (r.reW b).reW a = r.reW (a ++ b) := by
  cases r <;> simp [BRes.reW]

lemma reW_nil (r : BRes) : r.reW [] = r := by
  cases r <;> simp [BRes.reW]

/-- Running `goU` with accumulated output `w` equals running it with empty
accumulated output and prefixing `w` afterwards. -/
lemma goU_reW (t : Nat → Code) (last : Bool) :
    ∀ (input : List Nat) (i : Nat) (q : Quad) (st : St) (w : List Nat),
      goU t last input i q st w = (goU t last input i q st []).reW w := by
  intro input
  induction input with
  | nil =>
    intro i q st w
    cases last with
    | false => simp [goU, BRes.reW]
    | true =>
      simp only [goU]
      cases (q.emit_final (padOf st) 3) <;> simp [BRes.reW]
  | cons b rest ih =>
    intro i q st w
    cases st with
    | data =>
      cases htb : t b with
      | skip => simpa only [goU, htb] using ih (i + 1) q .data w
      | invalid =>
        simp only [goU, htb]
        cases hadd : q.add 128 with
        | none => simp [BRes.reW]
        | some q2 =>
          simp only []
          cases hc : q2.complete with
          | false => simpa only [Bool.false_eq_true, if_false] using ih (i + 1) q2 .data w
          | true =>
            simp only [if_true]
            cases hep : q2.emit_pad 0 3 with
            | none => simp [BRes.reW]
            | some p =>
              simp only [List.nil_append]
              rw [ih (i + 1) p.2 .data (w ++ p.1), ih (i + 1) p.2 .data p.1, reW_reW]
      | pad =>
        simp only [goU, htb]
        cases hc : q.complete with
        | false => simpa only [Bool.false_eq_true, if_false] using ih (i + 1) q .pad1 w
        | true =>
          simp only [if_true]
          cases hep : q.emit_pad 0 3 with
          | none => simp [BRes.reW]
          | some p =>
            simp only [List.nil_append]
            rw [ih (i + 1) p.2 .pad1 (w ++ p.1), ih (i + 1) p.2 .pad1 p.1, reW_reW]
      | value v =>
        simp only [goU, htb]
        cases hadd : q.add v with
        | none => simp [BRes.reW]
        | some q2 =>
          simp only []
          cases hc : q2.complete with
          | false => simpa only [Bool.false_eq_true, if_false] using ih (i + 1) q2 .data w
          | true =>
            simp only [if_true]
            cases hep : q2.emit_pad 0 3 with
            | none => simp [BRes.reW]
            | some p =>
              simp only [List.nil_append]
              rw [ih (i + 1) p.2 .data (w ++ p.1), ih (i + 1) p.2 .data p.1, reW_reW]
    | pad1 =>
      cases htb : t b with
      | skip => simpa only [goU, htb] using ih (i + 1) q .pad1 w
      | invalid => simp [goU, htb, BRes.reW]
      | value v => simp [goU, htb, BRes.reW]
      | pad =>
        simp only [goU, htb]
        cases hc : q.complete with
        | false => simpa only [Bool.false_eq_true, if_false] using ih (i + 1) q .pad2 w
        | true =>
          simp only [if_true]
          cases hep : q.emit_pad 0 3 with
          | none => simp [BRes.reW]
          | some p =>
            simp only [List.nil_append]
            rw [ih (i + 1) p.2 .pad2 (w ++ p.1), ih (i + 1) p.2 .pad2 p.1, reW_reW]
    | pad2 =>
      cases htb : t b with
      | skip => simpa only [goU, htb] using ih (i + 1) q .pad2 w
      | invalid => simp [goU, htb, BRes.reW]
      | value v => simp [goU, htb, BRes.reW]
      | pad => simp [goU, htb, BRes.reW]

lemma okP_eq_ok {r : BRes} {q : Quad} {st : St} {w : List Nat} :
    r.okP = some (q, st, w) ↔ r = .ok q st w := by
  cases r <;> simp [BRes.okP]

/-- The success part of `goU` does not depend on the running input
offset (which only feeds error payloads). -/
lemma goU_okP_idx (t : Nat → Code) (last : Bool) :
    ∀ (input : List Nat) (i j : Nat) (q : Quad) (st : St) (w : List Nat),
      (goU t last input i q st w).okP = (goU t last input j q st w).okP := by
  intro input
  induction input with
  | nil => intro i j q st w; rfl
  | cons b rest ih =>
    intro i j q st w
    cases st with
    | data =>
      cases htb : t b with
      | skip => simpa only [goU, htb] using ih (i + 1) (j + 1) q .data w
      | invalid =>
        simp only [goU, htb]
        cases hadd : q.add 128 with
        | none => simp [BRes.okP]
        | some q2 =>
          simp only []
          cases hc : q2.complete with
          | false =>
            simpa only [Bool.false_eq_true, if_false] using ih (i + 1) (j + 1) q2 .data w
          | true =>
            simp only [if_true]
            cases hep : q2.emit_pad 0 3 with
            | none => simp [BRes.okP]
            | some p => exact ih (i + 1) (j + 1) p.2 .data (w ++ p.1)
      | pad =>
        simp only [goU, htb]
        cases hc : q.complete with
        | false =>
          simpa only [Bool.false_eq_true, if_false] using ih (i + 1) (j + 1) q .pad1 w
        | true =>
          simp only [if_true]
          cases hep : q.emit_pad 0 3 with
          | none => simp [BRes.okP]
          | some p => exact ih (i + 1) (j + 1) p.2 .pad1 (w ++ p.1)
      | value v =>
        simp only [goU, htb]
        cases hadd : q.add v with
        | none => simp [BRes.okP]
        | some q2 =>
          simp only []
          cases hc : q2.complete with
          | false =>
            simpa only [Bool.false_eq_true, if_false] using ih (i + 1) (j + 1) q2 .data w
          | true =>
            simp only [if_true]
            cases hep : q2.emit_pad 0 3 with
            | none => simp [BRes.okP]
            | some p => exact ih (i + 1) (j + 1) p.2 .data (w ++ p.1)
    | pad1 =>
      cases htb : t b with
      | skip => simpa only [goU, htb] using ih (i + 1) (j + 1) q .pad1 w
      | invalid => simp [goU, htb, BRes.okP]
      | value v => simp [goU, htb, BRes.okP]
      | pad =>
        simp only [goU, htb]
        cases hc : q.complete with
        | false =>
          simpa only [Bool.false_eq_true, if_false] using ih (i + 1) (j + 1) q .pad2 w
        | true =>
          simp only [if_true]
          cases hep : q.emit_pad 0 3 with
          | none => simp [BRes.okP]
          | some p => exact ih (i + 1) (j + 1) p.2 .pad2 (w ++ p.1)
    | pad2 =>
      cases htb : t b with
      | skip => simpa only [goU, htb] using ih (i + 1) (j + 1) q .pad2 w
      | invalid => simp [goU, htb, BRes.okP]
      | value v => simp [goU, htb, BRes.okP]
      | pad => simp [goU, htb, BRes.okP]

/-- A successful `goU` run only extends the already-written output. -/
lemma goU_ok_extends {t : Nat → Code} {last : Bool} {input : List Nat} {i : Nat}
    {q : Quad} {st : St} {w : List Nat} {q' : Quad} {st' : St} {w' : List Nat}
    (h : goU t last input i q st w = .ok q' st' w') : ∃ wr, w' = w ++ wr := by
  rw [goU_reW] at h
  cases hb : goU t last input i q st [] <;> rw [hb] at h <;> simp [BRes.reW] at h
  exact ⟨_, h.2.2.symm⟩

/-- Case analysis on `Quad::emit_pad`. -/
lemma emit_pad_cases (q : Quad) (pd a : Nat) :
    (3 - pd ≤ a ∧ q.emit_pad pd a = some ((q.convert).1.take (3 - pd), (q.convert).2))
      ∨ (¬(3 - pd ≤ a) ∧ q.emit_pad pd a = none) := by
  by_cases h : 3 - pd ≤ a <;> simp [Quad.emit_pad, h]

lemma emitPadE_of_ge (q : Quad) (pd a : Nat) (h : 3 - pd ≤ a) :
    emitPadE q pd a = .ok ((q.convert).1.take (3 - pd)) (q.convert).2 := by
  simp [emitPadE, Quad.emit_pad, h]

/-- The source's `(used, pad)` match equals the ordered condition chain of
`emitFinalIf`. -/
lemma emit_final_eq_if (q : Quad) (p a : Nat) :
    q.emit_final p a = emitFinalIf q p a := by
  unfold Quad.emit_final emitFinalIf
  cases hpf : padFill q p with
  | none => rfl
  | some q' =>
    obtain ⟨cs, u⟩ := q'
    rcases u with _ | _ | _ | _ | _ | u <;> rcases p with _ | _ | _ | p3 <;> rfl

/-- With at least 3 free output bytes, `emit_final` behaves as with an
unbounded buffer. -/
lemma emit_final_avail_ge (q : Quad) (p a : Nat) (h : 3 ≤ a) :
    q.emit_final p a = q.emit_final p 3 := by
  have he : ∀ (q2 : Quad) (pd : Nat), pd ≤ 3 → emitPadE q2 pd a = emitPadE q2 pd 3 := by
    intro q2 pd hpd
    rw [emitPadE_of_ge q2 pd a (le_trans (Nat.sub_le 3 pd) h),
      emitPadE_of_ge q2 pd 3 (Nat.sub_le 3 pd)]
  rw [emit_final_eq_if, emit_final_eq_if]
  unfold emitFinalIf
  cases hpf : padFill q p with
  | none => rfl
  | some q' =>
    dsimp only
    by_cases h1 : q'.used = 4 ∧ p ≤ 2
    · rw [if_pos h1, if_pos h1, he q' p (by omega)]
    · rw [if_neg h1, if_neg h1]
      by_cases h2 : q'.used = 3 ∧ p = 0
      · rw [if_pos h2, if_pos h2]
        cases hadd : q'.add 0 with
        | none => rfl
        | some q2 =>
          dsimp only
          rw [he q2 1 (by omega)]
      · rw [if_neg h2, if_neg h2]
        by_cases h3 : q'.used = 2 ∧ p = 0
        · rw [if_pos h3, if_pos h3]
          cases hadd : q'.add 0 with
          | none => rfl
          | some q2 =>
            dsimp only
            cases hadd2 : q2.add 0 with
            | none => rfl
            | some q3 =>
              dsimp only
              rw [he q3 2 (by omega)]
        · rw [if_neg h3, if_neg h3]

/-- `emit_final` against an unbounded buffer never reports
`OutputDoesNotFit`. -/
lemma emit_final_no_noFit (q : Quad) (p : Nat) : q.emit_final p 3 ≠ .noFit := by
  have he : ∀ (q2 : Quad) (pd : Nat), emitPadE q2 pd 3 ≠ .noFit := by
    intro q2 pd
    rw [emitPadE_of_ge q2 pd 3 (Nat.sub_le 3 pd)]
    simp
  rw [emit_final_eq_if]
  unfold emitFinalIf
  cases hpf : padFill q p with
  | none => simp
  | some q' =>
    dsimp only
    by_cases h1 : q'.used = 4 ∧ p ≤ 2
    · rw [if_pos h1]; exact he q' p
    · rw [if_neg h1]
      by_cases h2 : q'.used = 3 ∧ p = 0
      · rw [if_pos h2]
        cases hadd : q'.add 0 with
        | none => simp
        | some q2 =>
          dsimp only
          exact he q2 1
      · rw [if_neg h2]
        by_cases h3 : q'.used = 2 ∧ p = 0
        · rw [if_pos h3]
          cases hadd : q'.add 0 with
          | none => simp
          | some q2 =>
            dsimp only
            cases hadd2 : q2.add 0 with
            | none => simp
            | some q3 =>
              dsimp only
              exact he q3 2
        · rw [if_neg h3]
          by_cases h4 : q'.used = 0
          · rw [if_pos h4]; simp
          · rw [if_neg h4]; simp

lemma emitPadE_ok_char {q2 : Quad} {pd a : Nat} {bs : List Nat} {q3 : Quad}
    (h : emitPadE q2 pd a = .ok bs q3) :
    bs.length = 3 - pd ∧ 3 - pd ≤ a ∧ bs = (q2.convert).1.take (3 - pd)
      ∧ q3 = (q2.convert).2 := by
  rcases emit_pad_cases q2 pd a with ⟨hle, heq⟩ | ⟨hgt, heq⟩
  · rw [emitPadE, heq] at h
    injection h with h1 h2
    subst h1
    subst h2
    refine ⟨?_, hle, rfl, rfl⟩
    rw [List.length_take, convert_len]
    omega
  · rw [emitPadE, heq] at h
    cases h

/-- Characterization of a successful `emit_final`: the written bytes fit,
and the same result is produced with any sufficiently large buffer. -/
lemma emit_final_ok_char {q : Quad} {p a : Nat} {bs : List Nat} {q3 : Quad}
    (h : q.emit_final p a = .ok bs q3) :
    bs.length ≤ 3 ∧ bs.length ≤ a
      ∧ ∀ a2, bs.length ≤ a2 → q.emit_final p a2 = .ok bs q3 := by
  rw [emit_final_eq_if] at h
  have hgen : ∀ a2, bs.length ≤ a2 → q.emit_final p a2 = emitFinalIf q p a2 :=
    fun a2 _ => emit_final_eq_if q p a2
  unfold emitFinalIf at h
  cases hpf : padFill q p with
  | none => rw [hpf] at h; cases h
  | some q' =>
    rw [hpf] at h
    dsimp only at h
    by_cases h1 : q'.used = 4 ∧ p ≤ 2
    · rw [if_pos h1] at h
      obtain ⟨hlen, hle, hbs, hq3⟩ := emitPadE_ok_char h
      refine ⟨by omega, by omega, fun a2 ha2 => ?_⟩
      rw [emit_final_eq_if]
      unfold emitFinalIf
      rw [hpf]
      dsimp only
      rw [if_pos h1, emitPadE_of_ge q' p a2 (by omega), ← hbs, hq3]
    · rw [if_neg h1] at h
      by_cases h2 : q'.used = 3 ∧ p = 0
      · rw [if_pos h2] at h
        cases hadd : q'.add 0 with
        | none => rw [hadd] at h; cases h
        | some q2 =>
          rw [hadd] at h
          dsimp only at h
          obtain ⟨hlen, hle, hbs, hq3⟩ := emitPadE_ok_char h
          refine ⟨by omega, by omega, fun a2 ha2 => ?_⟩
          rw [emit_final_eq_if]
          unfold emitFinalIf
          rw [hpf]
          dsimp only
          rw [if_neg h1, if_pos h2, hadd]
          dsimp only
          rw [emitPadE_of_ge q2 1 a2 (by omega), ← hbs, hq3]
      · rw [if_neg h2] at h
        by_cases h3 : q'.used = 2 ∧ p = 0
        · rw [if_pos h3] at h
          cases hadd : q'.add 0 with
          | none => rw [hadd] at h; cases h
          | some q2 =>
            rw [hadd] at h
            dsimp only at h
            cases hadd2 : q2.add 0 with
            | none => rw [hadd2] at h; cases h
            | some q3x =>
              rw [hadd2] at h
              dsimp only at h
              obtain ⟨hlen, hle, hbs, hq3⟩ := emitPadE_ok_char h
              refine ⟨by omega, by omega, fun a2 ha2 => ?_⟩
              rw [emit_final_eq_if]
              unfold emitFinalIf
              rw [hpf]
              dsimp only
              rw [if_neg h1, if_neg h2, if_pos h3, hadd]
              dsimp only
              rw [hadd2]
              dsimp only
              rw [emitPadE_of_ge q3x 2 a2 (by omega), ← hbs, hq3]
        · rw [if_neg h3] at h
          by_cases h4 : q'.used = 0
          · rw [if_pos h4] at h
            injection h with h5 h6
            subst h5
            refine ⟨by simp, by simp, fun a2 ha2 => ?_⟩
            rw [emit_final_eq_if]
            unfold emitFinalIf
            rw [hpf]
            dsimp only
            rw [if_neg h1, if_neg h2, if_neg h3, if_pos h4, h6]
          · rw [if_neg h4] at h
            cases h

lemma take3_convert (q : Quad) : (q.convert).1.take 3 = (q.convert).1 :=
  List.take_of_length_le (convert_len q).le

/-- One step of the unbounded loop, described through `classify`. -/
lemma goU_step (t : Nat → Code) (last : Bool) (b : Nat) (rest : List Nat) (i : Nat)
    (q : Quad) (st : St) (w : List Nat) :
    goU t last (b :: rest) i q st w =
      (match classify t b q st with
       | .skipped => goU t last rest (i + 1) q st w
       | .failed => .err (.invalidInput i) w
       | .panicked => .panic
       | .moved q2 st2 => goU t last rest (i + 1) q2 st2 w
       | .emitted q2 st2 =>
         goU t last rest (i + 1) (q2.convert).2 st2 (w ++ (q2.convert).1)) := by
  cases st with
  | data =>
    cases htb : t b with
    | skip => simp [goU, classify, htb]
    | invalid =>
      simp only [goU, classify, htb]
      cases hadd : q.add 128 with
      | none => simp
      | some q2 =>
        dsimp only
        cases hc : q2.complete with
        | false => simp
        | true =>
          rw [emit_pad_zero q2 3 le_rfl]
          simp
    | pad =>
      simp only [goU, classify, htb]
      cases hc : q.complete with
      | false => simp
      | true =>
        rw [emit_pad_zero q 3 le_rfl]
        simp
    | value v =>
      simp only [goU, classify, htb]
      cases hadd : q.add v with
      | none => simp
      | some q2 =>
        dsimp only
        cases hc : q2.complete with
        | false => simp
        | true =>
          rw [emit_pad_zero q2 3 le_rfl]
          simp
  | pad1 =>
    cases htb : t b with
    | skip => simp [goU, classify, htb]
    | invalid => simp [goU, classify, htb]
    | value v => simp [goU, classify, htb]
    | pad =>
      simp only [goU, classify, htb]
      cases hc : q.complete with
      | false => simp
      | true =>
        rw [emit_pad_zero q 3 le_rfl]
        simp
  | pad2 =>
    cases htb : t b with
    | skip => simp [goU, classify, htb]
    | invalid => simp [goU, classify, htb]
    | value v => simp [goU, classify, htb]
    | pad => simp [goU, classify, htb]

/-- One step of the bounded loop, described through `classify`; an
emission checks the remaining capacity first. -/
lemma goB_step (t : Nat → Code) (cap : Nat) (last : Bool) (b : Nat) (rest : List Nat)
    (i : Nat) (q : Quad) (st : St) (w : List Nat) :
    goB t cap last (b :: rest) i q st w =
      (match classify t b q st with
       | .skipped => goB t cap last rest (i + 1) q st w
       | .failed => .err (.invalidInput i) w
       | .panicked => .panic
       | .moved q2 st2 => goB t cap last rest (i + 1) q2 st2 w
       | .emitted q2 st2 =>
         if 3 ≤ cap - w.length then
           goB t cap last rest (i + 1) (q2.convert).2 st2 (w ++ (q2.convert).1)
         else .err .outputDoesNotFit w) := by
  have hemit : ∀ (q2 : Quad) (st2 : St),
      (match q2.emit_pad 0 (cap - w.length) with
       | some p => goB t cap last rest (i + 1) p.2 st2 (w ++ p.1)
       | none => .err .outputDoesNotFit w) =
      (if 3 ≤ cap - w.length then
         goB t cap last rest (i + 1) (q2.convert).2 st2 (w ++ (q2.convert).1)
       else .err .outputDoesNotFit w) := by
    intro q2 st2
    rcases emit_pad_cases q2 0 (cap - w.length) with ⟨hle, heq⟩ | ⟨hgt, heq⟩
    · rw [heq]
      dsimp only
      rw [if_pos (by simpa using hle)]
      simp [take3_convert]
    · rw [heq]
      dsimp only
      rw [if_neg (by simpa using hgt)]
  cases st with
  | data =>
    cases htb : t b with
    | skip => simp [goB, classify, htb]
    | invalid =>
      simp only [goB, classify, htb]
      cases hadd : q.add 128 with
      | none => simp
      | some q2 =>
        dsimp only
        cases hc : q2.complete with
        | false => simp
        | true => simpa using hemit q2 .data
    | pad =>
      simp only [goB, classify, htb]
      cases hc : q.complete with
      | false => simp
      | true => simpa using hemit q .pad1
    | value v =>
      simp only [goB, classify, htb]
      cases hadd : q.add v with
      | none => simp
      | some q2 =>
        dsimp only
        cases hc : q2.complete with
        | false => simp
        | true => simpa using hemit q2 .data
  | pad1 =>
    cases htb : t b with
    | skip => simp [goB, classify, htb]
    | invalid => simp [goB, classify, htb]
    | value v => simp [goB, classify, htb]
    | pad =>
      simp only [goB, classify, htb]
      cases hc : q.complete with
      | false => simp
      | true => simpa using hemit q .pad2
  | pad2 =>
    cases htb : t b with
    | skip => simp [goB, classify, htb]
    | invalid => simp [goB, classify, htb]
    | value v => simp [goB, classify, htb]
    | pad => simp [goB, classify, htb]

lemma add_used {q : Quad} {v : Nat} {q2 : Quad} (h : q.add v = some q2) :
    q2.used = q.used + 1 := by
  unfold Quad.add at h
  split at h
  · injection h with h1
    rw [← h1]
  · cases h

/-- `emit_final` with an empty accumulator and no pads emits nothing. -/
lemma emit_final_used0 {q : Quad} (h : q.used = 0) (a : Nat) :
    q.emit_final 0 a = .ok [] q := by
  rw [emit_final_eq_if]
  unfold emitFinalIf padFill
  dsimp only
  rw [if_neg (by omega), if_neg (by omega), if_neg (by omega), if_pos h]

/-- A `moved` classification advances `used + pads` by at most one. -/
lemma classify_moved {t : Nat → Code} {b : Nat} {q : Quad} {st : St} {q2 : Quad}
    {st2 : St} (h : classify t b q st = .moved q2 st2) :
    q2.used + padOf st2 ≤ q.used + padOf st + 1 := by
  unfold classify at h
  cases st with
  | data =>
    cases htb : t b with
    | skip => rw [htb] at h; cases h
    | invalid =>
      rw [htb] at h
      dsimp only at h
      rcases hadd : q.add 128 with _ | q3 <;> rw [hadd] at h <;> dsimp only at h
      · cases h
      · split at h
        · cases h
        · injection h with h1 h2
          subst h1
          subst h2
          have := add_used hadd
          simp [padOf]
          omega
    | pad =>
      rw [htb] at h
      dsimp only at h
      split at h
      · cases h
      · injection h with h1 h2
        subst h1
        subst h2
        simp [padOf]
    | value v =>
      rw [htb] at h
      dsimp only at h
      rcases hadd : q.add v with _ | q3 <;> rw [hadd] at h <;> dsimp only at h
      · cases h
      · split at h
        · cases h
        · injection h with h1 h2
          subst h1
          subst h2
          have := add_used hadd
          simp [padOf]
          omega
  | pad1 =>
    cases htb : t b with
    | skip => rw [htb] at h; cases h
    | invalid => rw [htb] at h; cases h
    | value v => rw [htb] at h; cases h
    | pad =>
      rw [htb] at h
      dsimp only at h
      split at h
      · cases h
      · injection h with h1 h2
        subst h1
        subst h2
        simp [padOf]
  | pad2 =>
    cases htb : t b with
    | skip => rw [htb] at h; cases h
    | invalid => rw [htb] at h; cases h
    | value v => rw [htb] at h; cases h
    | pad => rw [htb] at h; cases h

/-- An `emitted` classification completes a quad: `4 + pads` afterwards is
at most `used + pads + 1` before, and the emitted quad is full. -/
lemma classify_emitted {t : Nat → Code} {b : Nat} {q : Quad} {st : St} {q2 : Quad}
    {st2 : St} (h : classify t b q st = .emitted q2 st2) :
    4 + padOf st2 ≤ q.used + padOf st + 1 := by
  unfold classify at h
  cases st with
  | data =>
    cases htb : t b with
    | skip => rw [htb] at h; cases h
    | invalid =>
      rw [htb] at h
      dsimp only at h
      rcases hadd : q.add 128 with _ | q3 <;> rw [hadd] at h <;> dsimp only at h
      · cases h
      · split at h
        · rename_i hc
          injection h with h1 h2
          have h4 : q3.used = 4 := by simpa [Quad.complete] using hc
          have h5 := add_used hadd
          rw [← h2]
          simp [padOf]
          omega
        · cases h
    | pad =>
      rw [htb] at h
      dsimp only at h
      split at h
      · rename_i hc
        injection h with h1 h2
        subst h1
        subst h2
        have h4 : q.used = 4 := by simpa [Quad.complete] using hc
        simp [padOf, h4]
      · cases h
    | value v =>
      rw [htb] at h
      dsimp only at h
      rcases hadd : q.add v with _ | q3 <;> rw [hadd] at h <;> dsimp only at h
      · cases h
      · split at h
        · rename_i hc
          injection h with h1 h2
          have h4 : q3.used = 4 := by simpa [Quad.complete] using hc
          have h5 := add_used hadd
          rw [← h2]
          simp [padOf]
          omega
        · cases h
  | pad1 =>
    cases htb : t b with
    | skip => rw [htb] at h; cases h
    | invalid => rw [htb] at h; cases h
    | value v => rw [htb] at h; cases h
    | pad =>
      rw [htb] at h
      dsimp only at h
      split at h
      · rename_i hc
        injection h with h1 h2
        subst h1
        subst h2
        have h4 : q.used = 4 := by simpa [Quad.complete] using hc
        simp [padOf, h4]
      · cases h
  | pad2 =>
    cases htb : t b with
    | skip => rw [htb] at h; cases h
    | invalid => rw [htb] at h; cases h
    | value v => rw [htb] at h; cases h
    | pad => rw [htb] at h; cases h

/-- The unbounded loop never reports `OutputDoesNotFit`. -/
lemma goU_no_odnf (t : Nat → Code) (last : Bool) :
    ∀ (input : List Nat) (i : Nat) (q : Quad) (st : St) (w w1 : List Nat),
      goU t last input i q st w ≠ .err .outputDoesNotFit w1 := by
  intro input
  induction input with
  | nil =>
    intro i q st w w1
    cases last with
    | false => simp [goU]
    | true =>
      simp only [goU, if_true]
      cases hef : q.emit_final (padOf st) 3 with
      | noFit => exact absurd hef (emit_final_no_noFit q (padOf st))
      | panic => simp
      | invalid => simp
      | ok bs q2 => simp
  | cons b rest ih =>
    intro i q st w w1
    rw [goU_step]
    cases hcl : classify t b q st with
    | skipped => exact ih (i + 1) q st w w1
    | failed => simp
    | panicked => simp
    | moved q2 st2 => exact ih (i + 1) q2 st2 w w1
    | emitted q2 st2 => exact ih (i + 1) (q2.convert).2 st2 (w ++ (q2.convert).1) w1

/-- A successful bounded run is also an unbounded run. -/
lemma goB_ok_goU (t : Nat → Code) (cap : Nat) (last : Bool) :
    ∀ (input : List Nat) (i : Nat) (q : Quad) (st : St) (w : List Nat)
      (q' : Quad) (st' : St) (w' : List Nat),
      goB t cap last input i q st w = .ok q' st' w' →
      goU t last input i q st w = .ok q' st' w' := by
  intro input
  induction input with
  | nil =>
    intro i q st w q' st' w' h
    cases last with
    | false => simpa [goB, goU] using h
    | true =>
      simp only [goB, if_true] at h
      simp only [goU, if_true]
      cases hef : q.emit_final (padOf st) (cap - w.length) with
      | panic => rw [hef] at h; cases h
      | invalid => rw [hef] at h; cases h
      | noFit => rw [hef] at h; cases h
      | ok bs q2 =>
        rw [hef] at h
        obtain ⟨h3, _, hgen⟩ := emit_final_ok_char hef
        rw [hgen 3 h3]
        exact h
  | cons b rest ih =>
    intro i q st w q' st' w' h
    rw [goB_step] at h
    rw [goU_step]
    rw [show classify t b q st = classify t b q st from rfl] at h
    cases hcl : classify t b q st with
    | skipped =>
      rw [hcl] at h
      dsimp only at h ⊢
      exact ih _ _ _ _ _ _ _ h
    | failed =>
      rw [hcl] at h
      dsimp only at h ⊢
      exact h
    | panicked =>
      rw [hcl] at h
      dsimp only at h
      cases h
    | moved q2 st2 =>
      rw [hcl] at h
      dsimp only at h ⊢
      exact ih _ _ _ _ _ _ _ h
    | emitted q2 st2 =>
      rw [hcl] at h
      dsimp only at h ⊢
      by_cases hle : 3 ≤ cap - w.length
      · rw [if_pos hle] at h
        exact ih _ _ _ _ _ _ _ h
      · rw [if_neg hle] at h
        cases h

/-- A successful unbounded run fits into any buffer that can hold its
output. -/
lemma goU_goB_ok (t : Nat → Code) (cap : Nat) (last : Bool) :
    ∀ (input : List Nat) (i : Nat) (q : Quad) (st : St) (w : List Nat)
      (q' : Quad) (st' : St) (w' : List Nat),
      goU t last input i q st w = .ok q' st' w' → w'.length ≤ cap →
      goB t cap last input i q st w = .ok q' st' w' := by
  intro input
  induction input with
  | nil =>
    intro i q st w q' st' w' h hle
    cases last with
    | false => simpa [goB, goU] using h
    | true =>
      simp only [goU, if_true] at h
      simp only [goB, if_true]
      cases hef : q.emit_final (padOf st) 3 with
      | panic => rw [hef] at h; cases h
      | invalid => rw [hef] at h; cases h
      | noFit => rw [hef] at h; cases h
      | ok bs q2 =>
        rw [hef] at h
        obtain ⟨h3, _, hgen⟩ := emit_final_ok_char hef
        injection h with h1 h2 h3w
        have hw' : w'.length = w.length + bs.length := by
          rw [← h3w]
          simp
        rw [hgen (cap - w.length) (by omega)]
        dsimp only
        rw [h1, h2, h3w]
  | cons b rest ih =>
    intro i q st w q' st' w' h hle
    rw [goU_step] at h
    rw [goB_step]
    cases hcl : classify t b q st with
    | skipped =>
      rw [hcl] at h
      dsimp only at h ⊢
      exact ih _ _ _ _ _ _ _ h hle
    | failed =>
      rw [hcl] at h
      dsimp only at h ⊢
      exact h
    | panicked =>
      rw [hcl] at h
      dsimp only at h
      cases h
    | moved q2 st2 =>
      rw [hcl] at h
      dsimp only at h ⊢
      exact ih _ _ _ _ _ _ _ h hle
    | emitted q2 st2 =>
      rw [hcl] at h
      dsimp only at h ⊢
      obtain ⟨ext, hext⟩ := goU_ok_extends h
      have h1 : w'.length = w.length + 3 + ext.length := by
        rw [hext]
        simp [convert_len]
        omega
      rw [if_pos (by omega)]
      exact ih _ _ _ _ _ _ _ h hle

/-- With a buffer of at least the `decode_len_estimate` for the total
input length, the bounded loop never diverges from the unbounded one.
The invariant: `w` holds `3 * k` bytes from `k` full quads, which together
with the pending values and pads consumed at least `4 * k + used + pads`
input bytes. -/
lemma goB_eq_goU_cap (t : Nat → Code) (cap : Nat) (last : Bool) (n : Nat)
    (hcap : 3 * ((n + 3) / 4) ≤ cap) :
    ∀ (input : List Nat) (i : Nat) (q : Quad) (st : St) (w : List Nat) (k : Nat),
      w.length = 3 * k → 4 * k + q.used + padOf st + input.length ≤ n →
      goB t cap last input i q st w = goU t last input i q st w := by
  intro input
  induction input with
  | nil =>
    intro i q st w k hw hinv
    cases last with
    | false => simp [goB, goU]
    | true =>
      simp only [goB, goU, if_true]
      by_cases h0 : q.used = 0 ∧ st = .data
      · obtain ⟨h0u, h0s⟩ := h0
        subst h0s
        rw [show padOf St.data = 0 from rfl, emit_final_used0 h0u, emit_final_used0 h0u]
      · have hge : 1 ≤ q.used + padOf st := by
          by_cases hu : q.used = 0
          · cases st with
            | data => exact absurd ⟨hu, rfl⟩ h0
            | pad1 => simp [padOf]
            | pad2 => simp [padOf]
          · omega
        have h3 : 3 ≤ cap - w.length := by
          simp only [List.length_nil] at hinv
          omega
        rw [emit_final_avail_ge q (padOf st) (cap - w.length) h3]
  | cons b rest ih =>
    intro i q st w k hw hinv
    simp only [List.length_cons] at hinv
    rw [goB_step, goU_step]
    cases hcl : classify t b q st with
    | skipped =>
      dsimp only
      exact ih (i + 1) q st w k hw (by omega)
    | failed => rfl
    | panicked => rfl
    | moved q2 st2 =>
      dsimp only
      have hm := classify_moved hcl
      exact ih (i + 1) q2 st2 w k hw (by omega)
    | emitted q2 st2 =>
      dsimp only
      have he := classify_emitted hcl
      have hlen : 3 ≤ cap - w.length := by omega
      rw [if_pos hlen]
      have hcu : ((q2.convert).2).used = 0 := rfl
      refine ih (i + 1) (q2.convert).2 st2 (w ++ (q2.convert).1) (k + 1) ?_ ?_
      · simp only [List.length_append, convert_len, hw]
        omega
      · rw [hcu]
        omega

/-- A successful bounded run never writes more than the capacity. -/
lemma goB_ok_le (t : Nat → Code) (cap : Nat) (last : Bool) :
    ∀ (input : List Nat) (i : Nat) (q : Quad) (st : St) (w : List Nat)
      (q' : Quad) (st' : St) (w' : List Nat),
      w.length ≤ cap → goB t cap last input i q st w = .ok q' st' w' →
      w'.length ≤ cap := by
  intro input
  induction input with
  | nil =>
    intro i q st w q' st' w' hwc h
    cases last with
    | false =>
      simp only [goB] at h
      injection h with h1 h2 h3
      rw [h3] at hwc
      exact hwc
    | true =>
      simp only [goB, if_true] at h
      cases hef : q.emit_final (padOf st) (cap - w.length) with
      | panic => rw [hef] at h; cases h
      | invalid => rw [hef] at h; cases h
      | noFit => rw [hef] at h; cases h
      | ok bs q2 =>
        rw [hef] at h
        obtain ⟨_, hlea, _⟩ := emit_final_ok_char hef
        injection h with h1 h2 h3
        rw [← h3]
        simp only [List.length_append]
        omega
  | cons b rest ih =>
    intro i q st w q' st' w' hwc h
    rw [goB_step] at h
    cases hcl : classify t b q st with
    | skipped => rw [hcl] at h; dsimp only at h; exact ih _ _ _ _ _ _ _ hwc h
    | failed => rw [hcl] at h; dsimp only at h; cases h
    | panicked => rw [hcl] at h; dsimp only at h; cases h
    | moved q2 st2 => rw [hcl] at h; dsimp only at h; exact ih _ _ _ _ _ _ _ hwc h
    | emitted q2 st2 =>
      rw [hcl] at h
      dsimp only at h
      by_cases hle : 3 ≤ cap - w.length
      · rw [if_pos hle] at h
        refine ih _ _ _ _ _ _ _ ?_ h
        simp only [List.length_append, convert_len]
        omega
      · rw [if_neg hle] at h
        cases h

/-- When the bounded loop fails with `OutputDoesNotFit`, the output
written so far consists of whole triples. -/
lemma goB_odnf_mod3 (t : Nat → Code) (cap : Nat) (last : Bool) :
    ∀ (input : List Nat) (i : Nat) (q : Quad) (st : St) (w w1 : List Nat),
      w.length % 3 = 0 → goB t cap last input i q st w = .err .outputDoesNotFit w1 →
      w1.length % 3 = 0 := by
  intro input
  induction input with
  | nil =>
    intro i q st w w1 hw h
    cases last with
    | false => simp only [goB] at h; cases h
    | true =>
      simp only [goB, if_true] at h
      cases hef : q.emit_final (padOf st) (cap - w.length) with
      | panic => rw [hef] at h; cases h
      | invalid => rw [hef] at h; simp at h
      | ok bs q2 => rw [hef] at h; cases h
      | noFit =>
        rw [hef] at h
        injection h with h1 h2
        rw [← h2]
        exact hw
  | cons b rest ih =>
    intro i q st w w1 hw h
    rw [goB_step] at h
    cases hcl : classify t b q st with
    | skipped => rw [hcl] at h; dsimp only at h; exact ih _ _ _ _ _ hw h
    | failed => rw [hcl] at h; dsimp only at h; simp at h
    | panicked => rw [hcl] at h; dsimp only at h; cases h
    | moved q2 st2 => rw [hcl] at h; dsimp only at h; exact ih _ _ _ _ _ hw h
    | emitted q2 st2 =>
      rw [hcl] at h
      dsimp only at h
      by_cases hle : 3 ≤ cap - w.length
      · rw [if_pos hle] at h
        refine ih _ _ _ _ _ ?_ h
        simp only [List.length_append, convert_len]
        omega
      · rw [if_neg hle] at h
        injection h with h1 h2
        rw [← h2]
        exact hw

/-- On an `OutputDoesNotFit` failure, the bytes written so far are a
prefix of what the unbounded run produces. -/
lemma goB_odnf_prefix (t : Nat → Code) (cap : Nat) (last : Bool) :
    ∀ (input : List Nat) (i : Nat) (q : Quad) (st : St) (w w1 : List Nat)
      (q' : Quad) (st' : St) (w2 : List Nat),
      goB t cap last input i q st w = .err .outputDoesNotFit w1 →
      goU t last input i q st w = .ok q' st' w2 → w1 <+: w2 := by
  intro input
  induction input with
  | nil =>
    intro i q st w w1 q' st' w2 hB hU
    cases last with
    | false => simp only [goB] at hB; cases hB
    | true =>
      simp only [goB, if_true] at hB
      simp only [goU, if_true] at hU
      cases hefB : q.emit_final (padOf st) (cap - w.length) with
      | panic => rw [hefB] at hB; cases hB
      | invalid => rw [hefB] at hB; simp at hB
      | ok bs q2 => rw [hefB] at hB; cases hB
      | noFit =>
        rw [hefB] at hB
        injection hB with h1 h2
        cases hefU : q.emit_final (padOf st) 3 with
        | panic => rw [hefU] at hU; cases hU
        | invalid => rw [hefU] at hU; cases hU
        | noFit => rw [hefU] at hU; cases hU
        | ok bs q2 =>
          rw [hefU] at hU
          injection hU with h3 h4 h5
          rw [← h2, ← h5]
          exact List.prefix_append w bs
  | cons b rest ih =>
    intro i q st w w1 q' st' w2 hB hU
    rw [goB_step] at hB
    rw [goU_step] at hU
    cases hcl : classify t b q st with
    | skipped =>
      rw [hcl] at hB hU
      dsimp only at hB hU
      exact ih _ _ _ _ _ _ _ _ hB hU
    | failed => rw [hcl] at hB; dsimp only at hB; simp at hB
    | panicked => rw [hcl] at hB; dsimp only at hB; cases hB
    | moved q2 st2 =>
      rw [hcl] at hB hU
      dsimp only at hB hU
      exact ih _ _ _ _ _ _ _ _ hB hU
    | emitted q2 st2 =>
      rw [hcl] at hB hU
      dsimp only at hB hU
      by_cases hle : 3 ≤ cap - w.length
      · rw [if_pos hle] at hB
        exact ih _ _ _ _ _ _ _ _ hB hU
      · rw [if_neg hle] at hB
        injection hB with h1 h2
        obtain ⟨ext, hext⟩ := goU_ok_extends hU
        rw [← h2, hext, List.append_assoc]
        exact List.prefix_append w _

/-- `goU` success results do not depend on the input offset argument. -/
lemma goU_ok_idx {t : Nat → Code} {last : Bool} {input : List Nat} {i j : Nat}
    {q : Quad} {st : St} {w : List Nat} {q' : Quad} {st' : St} {w' : List Nat}
    (h : goU t last input i q st w = .ok q' st' w') :
    goU t last input j q st w = .ok q' st' w' := by
  have hk := goU_okP_idx t last input i j q st w
  rw [h] at hk
  simp only [BRes.okP] at hk
  exact okP_eq_ok.mp hk.symm

/-- Splitting an unbounded run at a successful intermediate point. -/
lemma goU_append (t : Nat → Code) (last : Bool) (ys : List Nat) :
    ∀ (xs : List Nat) (i : Nat) (q : Quad) (st : St) (w : List Nat)
      (q1 : Quad) (st1 : St) (w1 : List Nat),
      goU t false xs i q st w = .ok q1 st1 w1 →
      goU t last (xs ++ ys) i q st w = goU t last ys (i + xs.length) q1 st1 w1 := by
  intro xs
  induction xs with
  | nil =>
    intro i q st w q1 st1 w1 h
    simp only [goU] at h
    injection h with h1 h2 h3
    subst h1
    subst h2
    subst h3
    simp
  | cons b xs ih =>
    intro i q st w q1 st1 w1 h
    rw [goU_step] at h
    rw [List.cons_append, goU_step]
    rw [show i + (b :: xs).length = (i + 1) + xs.length from by
      simp only [List.length_cons]; omega]
    cases hcl : classify t b q st with
    | skipped =>
      rw [hcl] at h
      dsimp only at h ⊢
      exact ih _ _ _ _ _ _ _ h
    | failed => rw [hcl] at h; dsimp only at h; cases h
    | panicked => rw [hcl] at h; dsimp only at h; cases h
    | moved q2 st2 =>
      rw [hcl] at h
      dsimp only at h ⊢
      exact ih _ _ _ _ _ _ _ h
    | emitted q2 st2 =>
      rw [hcl] at h
      dsimp only at h ⊢
      exact ih _ _ _ _ _ _ _ h

/-- If the unbounded one-shot run of `bs` from state `(q, st)` succeeds,
the incremental byte-at-a-time protocol produces the same bytes. -/
lemma chainGo_of_goU (t : Nat → Code) :
    ∀ (bs : List Nat) (q : Quad) (st : St) (acc : List Nat)
      (q' : Quad) (st' : St) (w : List Nat),
      goU t true bs 0 q st [] = .ok q' st' w →
      chainGo t bs q st acc = some (acc ++ w) := by
  intro bs
  induction bs with
  | nil =>
    intro q st acc q' st' w h
    have hBU : goB t 3 true ([] : List Nat) 0 q st [] = goU t true [] 0 q st [] := by
      simp [goB, goU]
    simp only [chainGo, Decoder.finish, Decoder.process]
    rw [hBU, h]
  | cons b bs ih =>
    intro q st acc q' st' w h
    rw [goU_step] at h
    simp only [chainGo, Decoder.update, Decoder.process]
    rw [goB_step]
    cases hcl : classify t b q st with
    | skipped =>
      rw [hcl] at h
      dsimp only at h ⊢
      rw [show goB t 3 false ([] : List Nat) 1 q st [] = .ok q st [] from by simp [goB]]
      dsimp only
      rw [List.append_nil]
      exact ih q st acc q' st' w (goU_ok_idx h)
    | failed => rw [hcl] at h; dsimp only at h; cases h
    | panicked => rw [hcl] at h; dsimp only at h; cases h
    | moved q2 st2 =>
      rw [hcl] at h
      dsimp only at h ⊢
      rw [show goB t 3 false ([] : List Nat) 1 q2 st2 [] = .ok q2 st2 [] from by simp [goB]]
      dsimp only
      rw [List.append_nil]
      exact ih q2 st2 acc q' st' w (goU_ok_idx h)
    | emitted q2 st2 =>
      rw [hcl] at h
      dsimp only at h ⊢
      rw [if_pos (by simp)]
      rw [show goB t 3 false ([] : List Nat) 1 (q2.convert).2 st2 ([] ++ (q2.convert).1)
            = .ok (q2.convert).2 st2 ([] ++ (q2.convert).1) from by simp [goB]]
      dsimp only
      rw [List.nil_append] at h ⊢
      rw [goU_reW] at h
      cases hbase : goU t true bs 1 (q2.convert).2 st2 [] with
      | panic => rw [hbase] at h; dsimp only [BRes.reW] at h; cases h
      | err e we => rw [hbase] at h; dsimp only [BRes.reW] at h; cases h
      | ok qb sb wr =>
        rw [hbase] at h
        dsimp only [BRes.reW] at h
        injection h with h1 h2 h3
        rw [ih (q2.convert).2 st2 (acc ++ (q2.convert).1) qb sb wr (goU_ok_idx hbase)]
        rw [← h3, List.append_assoc]

/-- `decode` with the estimated capacity coincides with the unbounded
decode. -/
lemma decode_estimate_eq_decodeU (t : Nat → Code) (input : List Nat) :
    decode t input (decode_len_estimate input.length) = decodeU t input := by
  have h := goB_eq_goU_cap t (decode_len_estimate input.length) true input.length
    (by simp only [decode_len_estimate]; omega)
    input 0 Quad.new .data [] 0 rfl
    (by simp [Quad.new, padOf])
  simpa only [decode, Decoder.finish, Decoder.process, Decoder.new, decodeU] using h

/-! ## Claim C10 -/

/-- C10: `decode_len_estimate(n)` is `ceil(n/4)*3`, it never
under-estimates (any successful decode writes at most that many bytes),
and consequently neither `decode_into_vec` nor the PEM section decoding
path (`decode_public` / `decode_secret` into a `decoded_length` buffer)
can fail with `OutputDoesNotFit`. -/
theorem c10_decode_len_estimate_bounds :
    (∀ n, decode_len_estimate n = ((n + 3) / 4) * 3)
    ∧ (∀ (t : Nat → Code) (input : List Nat) (cap : Nat) (q : Quad) (st : St)
        (w : List Nat), decode t input cap = .ok q st w →
          w.length ≤ decode_len_estimate input.length)
    ∧ (∀ (t : Nat → Code) (input : List Nat) (w1 : List Nat),
        decode_into_vec t input ≠ .err .outputDoesNotFit w1)
    ∧ (∀ (buf w1 : List Nat), decode_public buf ≠ .err .outputDoesNotFit w1
        ∧ decode_secret buf ≠ .err .outputDoesNotFit w1) := by
  have hvec : ∀ (t : Nat → Code) (input : List Nat) (w1 : List Nat),
      decode_into_vec t input ≠ .err .outputDoesNotFit w1 := by
    intro t input w1
    rw [decode_into_vec, decode_estimate_eq_decodeU]
    exact goU_no_odnf t true input 0 Quad.new .data [] w1
  refine ⟨fun n => rfl, ?_, hvec, ?_⟩
  · intro t input cap q st w h
    have hU : decodeU t input = .ok q st w := by
      have := goB_ok_goU t cap true input 0 Quad.new .data [] q st w
      simp only [decode, Decoder.finish, Decoder.process, Decoder.new] at h
      exact this h
    have hB : decode t input (decode_len_estimate input.length) = .ok q st w := by
      rw [decode_estimate_eq_decodeU]
      exact hU
    have := goB_ok_le t (decode_len_estimate input.length) true input 0 Quad.new .data []
      q st w (by simp)
    simp only [decode, Decoder.finish, Decoder.process, Decoder.new] at hB
    exact this hB
  · intro buf w1
    exact ⟨hvec pemTable buf w1, hvec pemTable buf w1⟩

/-- Witness for C10: on input `"aaaa"` the decode writes 3 bytes, within
the estimate for length 4; likewise on `"!!!!"` whose invalid bytes the
source decodes as raw value 128 (output `[8, 32, 128]`). -/
theorem c10_decode_len_estimate_bounds_witness :
    ([105, 166, 154] : List Nat).length ≤ decode_len_estimate (bytesOf "aaaa").length
    ∧ ([8, 32, 128] : List Nat).length ≤ decode_len_estimate (bytesOf "!!!!").length :=
  ⟨c10_decode_len_estimate_bounds.2.1 standardTable (bytesOf "aaaa") 3
      ⟨[26, 26, 26, 26], 0⟩ .data [105, 166, 154] (by decide),
   c10_decode_len_estimate_bounds.2.1 standardTable (bytesOf "!!!!") 3
      ⟨[128, 128, 128, 128], 0⟩ .data [8, 32, 128] (by decide)⟩

/-! ## Claim C9 -/

/-- C9: whenever `Decoder::process` — i.e. `update` (`last = false`) or
`finish` (`last = true`), from any decoder state, mid-stream states
included — fails with `OutputDoesNotFit`, only whole previously-completed
triples have been written into this call's output (no partial triple),
they form a prefix of the output an unbounded buffer would receive from
the same state, and retrying from that state with any buffer large enough
for that full output succeeds with no bytes lost.  The last conjunct
records that `update`/`finish` are exactly the two `process` modes. -/
theorem c9_output_fit_recovery :
    (∀ (d : Decoder) (input : List Nat) (cap : Nat) (last : Bool) (w1 : List Nat),
        d.process input cap last = .err .outputDoesNotFit w1 →
          w1.length % 3 = 0
          ∧ ∀ (q2 : Quad) (st2 : St) (w2 : List Nat),
              goU d.table last input 0 d.quad d.state [] = .ok q2 st2 w2 → w1 <+: w2)
    ∧ (∀ (d : Decoder) (input : List Nat) (last : Bool) (q2 : Quad) (st2 : St)
        (w2 : List Nat),
        goU d.table last input 0 d.quad d.state [] = .ok q2 st2 w2 →
          ∀ cap, w2.length ≤ cap → d.process input cap last = .ok q2 st2 w2)
    ∧ (∀ (d : Decoder) (input : List Nat) (cap : Nat),
        d.update input cap = d.process input cap false
        ∧ d.finish input cap = d.process input cap true) := by
  refine ⟨?_, ?_, fun d input cap => ⟨rfl, rfl⟩⟩
  · intro d input cap last w1 h
    simp only [Decoder.process] at h
    constructor
    · exact goB_odnf_mod3 d.table cap last input 0 d.quad d.state [] w1 (by simp) h
    · intro q2 st2 w2 hU
      exact goB_odnf_prefix d.table cap last input 0 d.quad d.state [] w1 q2 st2 w2 h hU
  · intro d input last q2 st2 w2 hU cap hle
    simp only [Decoder.process]
    exact goU_goB_ok d.table cap last input 0 d.quad d.state [] q2 st2 w2 hU hle

/-- Witness for C9: an `update` from a mid-stream state (2 values already
accumulated) on input `"AA"` overflows a zero-capacity buffer having
written nothing, `[]` is a prefix of the full output `[0,0,0]`, and the
retry with capacity 3 recovers it; and a one-shot `finish` of `"!!!!"`
(invalid bytes, decoded by the source as raw value 128) overflows a
zero-capacity buffer and recovers with capacity 3. -/
theorem c9_output_fit_recovery_witness :
    (([] : List Nat) <+: [0, 0, 0])
    ∧ Decoder.process ⟨standardTable, ⟨[0, 0, 0, 0], 2⟩, .data⟩ (bytesOf "AA") 3 false
        = .ok ⟨[0, 0, 0, 0], 0⟩ .data [0, 0, 0]
    ∧ (([] : List Nat) <+: [8, 32, 128])
    ∧ Decoder.process ⟨standardTable, Quad.new, .data⟩ (bytesOf "!!!!") 3 true
        = .ok ⟨[128, 128, 128, 128], 0⟩ .data [8, 32, 128] :=
  ⟨(c9_output_fit_recovery.1 ⟨standardTable, ⟨[0, 0, 0, 0], 2⟩, .data⟩ (bytesOf "AA")
      0 false [] (by decide)).2 ⟨[0, 0, 0, 0], 0⟩ .data [0, 0, 0] (by decide),
   c9_output_fit_recovery.2.1 ⟨standardTable, ⟨[0, 0, 0, 0], 2⟩, .data⟩ (bytesOf "AA")
      false ⟨[0, 0, 0, 0], 0⟩ .data [0, 0, 0] (by decide) 3 (by decide),
   (c9_output_fit_recovery.1 ⟨standardTable, Quad.new, .data⟩ (bytesOf "!!!!")
      0 true [] (by decide)).2 ⟨[128, 128, 128, 128], 0⟩ .data [8, 32, 128] (by decide),
   c9_output_fit_recovery.2.1 ⟨standardTable, Quad.new, .data⟩ (bytesOf "!!!!")
      true ⟨[128, 128, 128, 128], 0⟩ .data [8, 32, 128] (by decide) 3 (by decide)⟩

/-! ## Claim C5 -/

/-- C5: whenever one-shot decoding succeeds, feeding the decoder the same
input one byte at a time via `update`, concatenating all outputs, then
calling `finish` on empty input, produces exactly the one-shot output. -/
theorem c5_incremental_equals_oneshot :
    ∀ (t : Nat → Code) (input : List Nat) (q : Quad) (st : St) (w : List Nat),
      decode_into_vec t input = .ok q st w → chainDecode t input = some w := by
  intro t input q st w h
  simp only [decode_into_vec, decode, Decoder.finish, Decoder.process, Decoder.new] at h
  have hU := goB_ok_goU t (decode_len_estimate input.length) true input 0
    Quad.new .data [] q st w h
  have := chainGo_of_goU t input Quad.new .data [] q st w hU
  simpa [chainDecode] using this

/-- Witness for C5 at `"aGVsbA=="` (decodes to `"hell"`) and at `"!!"`
(invalid bytes, which the source decodes as raw value 128, one-shot
output `[8]`). -/
theorem c5_incremental_equals_oneshot_witness :
    chainDecode standardTable (bytesOf "aGVsbA==") = some (bytesOf "hell")
    ∧ chainDecode standardTable (bytesOf "!!") = some [8] :=
  ⟨c5_incremental_equals_oneshot standardTable (bytesOf "aGVsbA==")
      ⟨[27, 0, 0, 0], 0⟩ .pad2 (bytesOf "hell") (by decide),
   c5_incremental_equals_oneshot standardTable (bytesOf "!!")
      ⟨[128, 128, 0, 0], 0⟩ .data [8] (by decide)⟩

/-! ## PEM layer: line splitting and marker lemmas -/

lemma sliceSplits_cons (l r : List Nat) (h10 : 10 ∉ l) :
    sliceSplits (l ++ 10 :: r) = (l, r) :: sliceSplits r := by
  induction l with
  | nil => simp [sliceSplits]
  | cons a l ih =>
    simp only [List.cons_append, sliceSplits, List.append_eq]
    rw [if_neg (show ¬(a = 10) from fun h => h10 (by simp [h])),
      ih (fun h => h10 (List.mem_cons_of_mem a h))]

lemma streamSplits_cons (l r : List Nat) (h10 : 10 ∉ l) (h13 : 13 ∉ l) :
    streamSplits (l ++ 10 :: r) = (l ++ [10], r) :: streamSplits r := by
  induction l with
  | nil => simp [streamSplits]
  | cons a l ih =>
    simp only [List.cons_append, streamSplits, List.append_eq]
    rw [if_neg (show ¬(a = 10 ∨ a = 13) from by
        rintro (h | h)
        · exact h10 (by simp [h])
        · exact h13 (by simp [h])),
      ih (fun h => h10 (List.mem_cons_of_mem a h)) (fun h => h13 (List.mem_cons_of_mem a h))]

lemma isPrefixOf_self_append (p l : List Nat) : p.isPrefixOf (p ++ l) = true := by
  induction p with
  | nil => simp [List.isPrefixOf]
  | cons a p ih => simp [List.isPrefixOf, ih]

lemma isPrefixOf_self (p : List Nat) : p.isPrefixOf p = true := by
  have := isPrefixOf_self_append p []
  rwa [List.append_nil] at this

lemma isPrefixOf_snoc (p : List Nat) (c : Nat) (hc : c ∉ p) :
    ∀ l : List Nat, p.isPrefixOf (l ++ [c]) = p.isPrefixOf l := by
  induction p with
  | nil => intro l; simp [List.isPrefixOf]
  | cons a p ih =>
    intro l
    cases l with
    | nil =>
      have hac : ¬(a = c) := fun h => hc (by simp [h])
      cases p with
      | nil => simp [List.isPrefixOf, hac]
      | cons b p' => simp [List.isPrefixOf, hac]
    | cons b l' =>
      simp only [List.cons_append, List.isPrefixOf, List.append_eq]
      rw [ih (fun h => hc (List.mem_cons_of_mem a h)) l']

lemma beginMarker_not_prefix_end (ty : List Nat) :
    beginMarker.isPrefixOf (mkEndMarker ty) = false := by
  simp [beginMarker, mkEndMarker, List.isPrefixOf]

/-! ## The BEGIN-line trailer scan -/

lemma scanRev_hyphen (rest : List Nat) (i tr p : Nat) :
    scanRev (45 :: rest) i tr p = scanRev rest (i - 1) (tr + 1) (i - 1) := by
  simp [scanRev]

lemma scanRev_mono : ∀ (bs : List Nat) (i tr p : Nat), tr ≤ (scanRev bs i tr p).1 := by
  intro bs
  induction bs with
  | nil => intro i tr p; simp [scanRev]
  | cons b rest ih =>
    intro i tr p
    simp only [scanRev]
    by_cases h45 : b = 45
    · rw [if_pos h45]
      exact le_trans (Nat.le_succ tr) (ih (i - 1) (tr + 1) (i - 1))
    · rw [if_neg h45]
      by_cases hws : b = 10 ∨ b = 13 ∨ b = 32
      · rw [if_pos hws]
        exact ih (i - 1) tr p
      · rw [if_neg hws]

lemma scanRev_pos_indep : ∀ (bs : List Nat) (i tr p1 p2 : Nat),
    (scanRev bs i tr p1).1 = (scanRev bs i tr p2).1
    ∧ ((scanRev bs i tr p1).1 ≠ tr → scanRev bs i tr p1 = scanRev bs i tr p2) := by
  intro bs
  induction bs with
  | nil =>
    intro i tr p1 p2
    refine ⟨rfl, fun h => absurd rfl h⟩
  | cons b rest ih =>
    intro i tr p1 p2
    simp only [scanRev]
    by_cases h45 : b = 45
    · rw [if_pos h45, if_pos h45]
      exact ⟨rfl, fun _ => rfl⟩
    · rw [if_neg h45, if_neg h45]
      by_cases hws : b = 10 ∨ b = 13 ∨ b = 32
      · rw [if_pos hws, if_pos hws]
        exact ih (i - 1) tr p1 p2
      · rw [if_neg hws, if_neg hws]
        exact ⟨rfl, fun h => absurd rfl h⟩

lemma scanRev_tr_eq_pos : ∀ (bs : List Nat) (i tr p : Nat),
    (scanRev bs i tr p).1 = tr → (scanRev bs i tr p).2 = p := by
  intro bs
  induction bs with
  | nil => intro i tr p _; rfl
  | cons b rest ih =>
    intro i tr p h
    simp only [scanRev] at h ⊢
    by_cases h45 : b = 45
    · rw [if_pos h45] at h ⊢
      have := scanRev_mono rest (i - 1) (tr + 1) (i - 1)
      omega
    · rw [if_neg h45] at h ⊢
      by_cases hws : b = 10 ∨ b = 13 ∨ b = 32
      · rw [if_pos hws] at h ⊢
        exact ih (i - 1) tr p h
      · rw [if_neg hws] at h ⊢

lemma scanRev_pos_lt : ∀ (bs : List Nat) (i tr p : Nat), bs.length ≤ i →
    (scanRev bs i tr p).1 ≠ tr → (scanRev bs i tr p).2 + 1 ≤ i := by
  intro bs
  induction bs with
  | nil => intro i tr p _ h; exact absurd rfl h
  | cons b rest ih =>
    intro i tr p hlen h
    simp only [List.length_cons] at hlen
    simp only [scanRev] at h ⊢
    by_cases h45 : b = 45
    · rw [if_pos h45] at h ⊢
      by_cases hr : (scanRev rest (i - 1) (tr + 1) (i - 1)).1 = tr + 1
      · have := scanRev_tr_eq_pos rest (i - 1) (tr + 1) (i - 1) hr
        omega
      · have := ih (i - 1) (tr + 1) (i - 1) (by omega) hr
        omega
    · rw [if_neg h45] at h ⊢
      by_cases hws : b = 10 ∨ b = 13 ∨ b = 32
      · rw [if_pos hws] at h ⊢
        have := ih (i - 1) tr p (by omega) h
        omega
      · rw [if_neg hws] at h
        exact absurd rfl h

/-- On a well-formed rendered BEGIN line, the reverse scan counts exactly
the five trailing hyphens and `pos` lands just after `b"-----BEGIN "` and
the label. -/
lemma beginTrailer_beginLine (label : List Nat) (hwf : wfLabel label) :
    beginTrailer (beginLineFor label) = (5, 11 + label.length) := by
  obtain ⟨h10, h13, h45, h32⟩ := hwf
  unfold beginTrailer beginLineFor
  have hrev : ((beginMarker ++ label ++ [45, 45, 45, 45, 45]).reverse)
      = 45 :: 45 :: 45 :: 45 :: 45 :: (label.reverse ++ beginMarker.reverse) := by
    simp [List.reverse_append]
  have hlen : (beginMarker ++ label ++ [45, 45, 45, 45, 45]).length
      = 16 + label.length := by
    simp [beginMarker]
    omega
  rw [hrev, hlen, scanRev_hyphen, scanRev_hyphen, scanRev_hyphen, scanRev_hyphen,
    scanRev_hyphen]
  rw [show 16 + label.length - 1 - 1 - 1 - 1 - 1 = 11 + label.length from by omega]
  cases hl : label.reverse with
  | nil =>
    have hnil : label = [] := List.reverse_eq_nil_iff.mp hl
    subst hnil
    simp only [List.nil_append, List.length_nil]
    decide
  | cons b lr =>
    have hb : label.getLast? = some b := by
      rw [List.getLast?_eq_head?_reverse, hl]
      rfl
    have hbmem : b ∈ label := by
      have : b ∈ label.reverse := by
        rw [hl]
        exact List.mem_cons_self b lr
      simpa using this
    have hb45 : ¬(b = 45) := fun h => h45 (by rw [hb, h])
    have hb32 : ¬(b = 32) := fun h => h32 (by rw [hb, h])
    have hb10 : ¬(b = 10) := fun h => h10 (h ▸ hbmem)
    have hb13 : ¬(b = 13) := fun h => h13 (h ▸ hbmem)
    simp only [List.cons_append, scanRev]
    rw [if_neg hb45, if_neg (by rintro (h | h | h) <;> contradiction)]

/-- The section type sliced out of a rendered BEGIN line is the label. -/
lemma ty_extract (label : List Nat) :
    ((beginLineFor label).take (11 + label.length)).drop 11 = label := by
  unfold beginLineFor
  rw [List.append_assoc,
    show 11 + label.length = beginMarker.length + label.length from rfl,
    List.take_append, List.take_left,
    show (11 : Nat) = beginMarker.length from rfl, List.drop_left]

/-! ## `read_one_impl` on the three kinds of lines -/

/-- A rendered BEGIN line opens the section for its label, leaving the
body buffer untouched. -/
lemma impl_begin (label : List Nat) (hwf : wfLabel label)
    (sect : Option (List Nat × List Nat)) (buf : List Nat) :
    read_one_impl (some (beginLineFor label)) sect buf
      = .ok (.cont, some (label, mkEndMarker label), buf) := by
  have h1 : beginMarker.isPrefixOf (beginLineFor label) = true := by
    rw [show beginLineFor label = beginMarker ++ (label ++ [45, 45, 45, 45, 45]) from by
        simp [beginLineFor]]
    exact isPrefixOf_self_append beginMarker (label ++ [45, 45, 45, 45, 45])
  simp only [read_one_impl, h1, if_true, beginTrailer_beginLine label hwf]
  rw [if_neg (by simp)]
  have h2 := ty_extract label
  simp only [List.drop_drop] at h2 ⊢
  simp [h2]

/-- A non-marker line inside a section is appended to the body buffer. -/
lemma impl_body (ty em line buf : List Nat)
    (hb : beginMarker.isPrefixOf line = false) (hem : em.isPrefixOf line = false) :
    read_one_impl (some line) (some (ty, em)) buf
      = .ok (.cont, some (ty, em), buf ++ line) := by
  simp [read_one_impl, hb, hem]

/-- The section's END line triggers the decode and dispatch. -/
lemma impl_end (label buf : List Nat) :
    read_one_impl (some (mkEndMarker label)) (some (label, mkEndMarker label)) buf
      = (match decode_public buf with
         | .panic => .panic
         | .err e _ => .err (.base64Decode e)
         | .ok _ _ der =>
           match itemFor label der with
           | some item => .ok (.brk (some item), some (label, mkEndMarker label), buf)
           | none => .ok (.cont, none, [])) := by
  simp only [read_one_impl, beginMarker_not_prefix_end, Bool.false_eq_true, if_false,
    isPrefixOf_self, if_true, show decode_secret = decode_public from rfl, ite_self]

/-- End of input inside a section is the missing-end-marker error. -/
lemma impl_eof_in_section (ty em buf : List Nat) :
    read_one_impl none (some (ty, em)) buf = .err (.missingSectionEnd em) := rfl

/-- End of input outside a section is the normal stop. -/
lemma impl_eof_no_section (buf : List Nat) :
    read_one_impl none none buf = .ok (.brk none, none, buf) := rfl

/-! ## Consuming a rendered section with the slice loop -/

lemma renderLines_cons (l : List Nat) (ls : List (List Nat)) :
    renderLines (l :: ls) = l ++ 10 :: renderLines ls := by
  simp [renderLines]

lemma renderLines_append (a b : List (List Nat)) :
    renderLines (a ++ b) = renderLines a ++ renderLines b := by
  simp [renderLines]

/-- Body lines are appended one after the other to the buffer. -/
lemma sliceCall_body (label : List Nat) :
    ∀ (body : List (List Nat)) (buf tailBytes : List Nat),
      (∀ l ∈ body, wfBodyLine (mkEndMarker label) l) →
      sliceCall (sliceSplits (renderLines body ++ tailBytes))
          (some (label, mkEndMarker label)) buf
        = sliceCall (sliceSplits tailBytes) (some (label, mkEndMarker label))
            (buf ++ body.flatten) := by
  intro body
  induction body with
  | nil =>
    intro buf tailBytes _
    simp [renderLines]
  | cons l ls ih =>
    intro buf tailBytes hwf
    obtain ⟨h10, h13, hnb, hne⟩ := hwf l (List.mem_cons_self l ls)
    rw [renderLines_cons, List.append_assoc,
      show (10 :: renderLines ls) ++ tailBytes = 10 :: (renderLines ls ++ tailBytes)
        from rfl,
      sliceSplits_cons l _ h10]
    simp only [sliceCall]
    rw [impl_body label (mkEndMarker label) l buf hnb hne]
    dsimp only
    rw [ih (buf ++ l) tailBytes (fun x hx => hwf x (List.mem_cons_of_mem l hx))]
    simp [List.append_assoc]

lemma not_mem_beginLine {label : List Nat} (c : Nat) (hc : c ∉ label)
    (hc45 : c ≠ 45) (hcB : c ∉ beginMarker) : c ∉ beginLineFor label := by
  simp only [beginLineFor, List.mem_append, List.mem_cons, List.not_mem_nil]
  rintro ((h | h) | h)
  · exact hcB h
  · exact hc h
  · rcases h with h | h | h | h | h | h <;> first | exact hc45 h | exact h

lemma ten_not_mem_endMarker {label : List Nat} (h : 10 ∉ label) :
    10 ∉ mkEndMarker label := by
  simp only [mkEndMarker, List.mem_append, List.mem_cons, List.not_mem_nil]
  rintro ((hh | hh) | hh)
  · rcases hh with hh | hh | hh | hh | hh | hh | hh | hh | hh | hh <;> simp at hh
  · exact h hh
  · rcases hh with hh | hh | hh | hh | hh | hh <;> simp at hh

/-- Processing one whole rendered section from a fresh scanner state:
a recognized label yields its item and leaves exactly the bytes after the
section; an unrecognized label restarts the scan on those bytes with a
fresh state. -/
lemma sliceCall_section (s : PemSection) (hwf : wfSection s) (tailBytes : List Nat) :
    sliceCall (sliceSplits (renderLines (sectionLines s) ++ tailBytes)) none []
      = (match specItemFor s.label (bodyDerOf s) with
         | some item => .ok (some (item, tailBytes))
         | none => sliceCall (sliceSplits tailBytes) none []) := by
  obtain ⟨hlab, hbody, hdec⟩ := hwf
  have h10begin : 10 ∉ beginLineFor s.label :=
    not_mem_beginLine 10 hlab.1 (by omega) (by decide)
  rw [show renderLines (sectionLines s) ++ tailBytes
      = beginLineFor s.label
          ++ 10 :: (renderLines (s.body ++ [mkEndMarker s.label]) ++ tailBytes) from by
    rw [sectionLines, renderLines_cons, beginLineOf, List.append_assoc]
    rfl]
  rw [sliceSplits_cons _ _ h10begin]
  simp only [sliceCall]
  rw [impl_begin s.label hlab none []]
  dsimp only
  rw [show renderLines (s.body ++ [mkEndMarker s.label]) ++ tailBytes
      = renderLines s.body ++ (mkEndMarker s.label ++ 10 :: tailBytes) from by
    rw [renderLines_append]
    simp [renderLines, List.append_assoc]]
  rw [sliceCall_body s.label s.body [] (mkEndMarker s.label ++ 10 :: tailBytes) hbody]
  have h10em : 10 ∉ mkEndMarker s.label := ten_not_mem_endMarker hlab.1
  rw [sliceSplits_cons _ _ h10em]
  simp only [sliceCall, List.nil_append]
  rw [impl_end s.label s.body.flatten]
  cases hd : decode_public s.body.flatten with
  | panic => rw [hd] at hdec; cases hdec
  | err e we => rw [hd] at hdec; cases hdec
  | ok qq ss der =>
    dsimp only
    have hder : bodyDerOf s = der := by
      unfold bodyDerOf
      rw [hd]
    rw [show itemFor = specItemFor from rfl, ← hder]
    cases hit : specItemFor s.label (bodyDerOf s) <;> rfl

/-! ## Claim C7 -/

/-- C7: reaching end of input inside an open section fails with the
missing-end-marker error naming the section's expected end marker;
reaching end of input outside any section — including on empty input —
is the normal no-more-items signal, not an error. -/
theorem c7_eof_in_section_vs_outside :
    (∀ (label : List Nat) (body : List (List Nat)), wfLabel label →
        (∀ l ∈ body, wfBodyLine (mkEndMarker label) l) →
        read_one_from_slice (renderLines (beginLineFor label :: body))
          = .err (.missingSectionEnd (mkEndMarker label)))
    ∧ read_one_from_slice [] = .ok none
    ∧ itemsSlice [] = ([], .eof)
    ∧ (∀ junk : List (List Nat),
        (∀ l ∈ junk, 10 ∉ l ∧ beginMarker.isPrefixOf l = false) →
        read_one_from_slice (renderLines junk) = .ok none) := by
  refine ⟨?_, rfl, rfl, ?_⟩
  · intro label body hlab hbody
    unfold read_one_from_slice
    have h10begin : 10 ∉ beginLineFor label :=
      not_mem_beginLine 10 hlab.1 (by omega) (by decide)
    rw [renderLines_cons, sliceSplits_cons _ _ h10begin]
    simp only [sliceCall]
    rw [impl_begin label hlab none []]
    dsimp only
    rw [show renderLines body = renderLines body ++ [] from by simp,
      sliceCall_body label body [] [] hbody]
    rfl
  · intro junk hjunk
    unfold read_one_from_slice
    induction junk with
    | nil => rfl
    | cons l ls ih =>
      obtain ⟨h10, hnb⟩ := hjunk l (List.mem_cons_self l ls)
      rw [renderLines_cons, sliceSplits_cons _ _ h10]
      simp only [sliceCall]
      rw [show read_one_impl (some l) none [] = .ok (.cont, none, []) from by
        simp [read_one_impl, hnb]]
      exact ih (fun x hx => hjunk x (List.mem_cons_of_mem l hx))

/-- Witness for C7: an unterminated `CERTIFICATE` section, and a junk-only
input. -/
theorem c7_eof_in_section_vs_outside_witness :
    read_one_from_slice (renderLines [beginLineFor (bytesOf "CERTIFICATE"),
        bytesOf "QUJD"])
      = .err (.missingSectionEnd (mkEndMarker (bytesOf "CERTIFICATE")))
    ∧ read_one_from_slice (renderLines [bytesOf "hello world"]) = .ok none :=
  ⟨c7_eof_in_section_vs_outside.1 (bytesOf "CERTIFICATE") [bytesOf "QUJD"]
      (by decide) (by decide),
   c7_eof_in_section_vs_outside.2.2.2 [bytesOf "hello world"] (by decide)⟩

/-! ## Claim C8 -/

/-- C8 counterexample: body bytes buffered for an (unclosed) section `A`
persist into the next section opened by a nested BEGIN line: the
`CERTIFICATE` section below has no body lines of its own, yet yields the
decoded payload `"ABC"` of section `A`'s body `"QUJD"`; and at the state
level re-reading a BEGIN line while a section is open keeps the non-empty
buffer. -/
theorem c8_counterexample_buffer_persists :
    read_one_from_slice (bytesOf
        "-----BEGIN A-----\nQUJD\n-----BEGIN CERTIFICATE-----\n-----END CERTIFICATE-----\n")
      = .ok (some (.x509Certificate [65, 66, 67], []))
    ∧ read_one_impl (some (beginLineFor (bytesOf "CERTIFICATE")))
        (some (bytesOf "A", mkEndMarker (bytesOf "A"))) (bytesOf "QUJD")
      = .ok (.cont, some (bytesOf "CERTIFICATE", mkEndMarker (bytesOf "CERTIFICATE")),
          bytesOf "QUJD") := by
  constructor
  · decide
  · decide

/-- C8 (amended): the body buffer is cleared on an unrecognized-label
section close (and the driver drops it on successful emission); however a
BEGIN line encountered while a section is open starts the new section
without clearing the buffer, so an open section's body persists into the
next section. -/
theorem c8_buffer_clearing_amended :
    (∀ (ty em line buf : List Nat) (s2 : Option (List Nat × List Nat)) (b2 : List Nat),
        beginMarker.isPrefixOf line = false →
        em.isPrefixOf line = true →
        read_one_impl (some line) (some (ty, em)) buf = .ok (.cont, s2, b2) →
        s2 = none ∧ b2 = [])
    ∧ (∀ (line : List Nat) (sect : Option (List Nat × List Nat)) (buf : List Nat)
        (fl : Flow) (s2 : Option (List Nat × List Nat)) (b2 : List Nat),
        beginMarker.isPrefixOf line = true →
        read_one_impl (some line) sect buf = .ok (fl, s2, b2) →
        b2 = buf) := by
  constructor
  · intro ty em line buf s2 b2 h1 h2 h
    simp only [read_one_impl, h1, Bool.false_eq_true, if_false, h2, if_true] at h
    cases hd : (if isSecretLabel ty = true then decode_secret buf else decode_public buf) with
    | panic => rw [hd] at h; cases h
    | err e we => rw [hd] at h; cases h
    | ok qq ss der =>
      rw [hd] at h
      dsimp only at h
      cases hit : itemFor ty der with
      | some item =>
        rw [hit] at h
        dsimp only at h
        injection h with h3
        injection h3 with h4
        cases h4
      | none =>
        rw [hit] at h
        dsimp only at h
        injection h with h3
        injection h3 with h4 h5
        injection h5 with h6 h7
        exact ⟨h6.symm, h7.symm⟩
  · intro line sect buf fl s2 b2 h1 h
    simp only [read_one_impl, h1, if_true] at h
    by_cases ht : (beginTrailer line).1 ≠ 5
    · rw [if_pos ht] at h
      cases h
    · rw [if_neg ht] at h
      injection h with h3
      injection h3 with h4 h5
      injection h5 with h6 h7
      exact h7.symm

/-- Witness for the amended C8: an unrecognized `FOO` section close clears
the buffer, and a nested BEGIN keeps it. -/
theorem c8_buffer_clearing_amended_witness :
    ((none : Option (List Nat × List Nat)) = none ∧ ([] : List Nat) = [])
    ∧ bytesOf "QUJD" = bytesOf "QUJD" :=
  ⟨c8_buffer_clearing_amended.1 (bytesOf "FOO") (mkEndMarker (bytesOf "FOO"))
      (mkEndMarker (bytesOf "FOO")) (bytesOf "QUJD") none [] (by decide) (by decide)
      (by decide),
   c8_buffer_clearing_amended.2 (beginLineFor (bytesOf "CERTIFICATE"))
      (some (bytesOf "A", mkEndMarker (bytesOf "A"))) (bytesOf "QUJD") .cont
      (some (bytesOf "CERTIFICATE", mkEndMarker (bytesOf "CERTIFICATE")))
      (bytesOf "QUJD") (by decide) (by decide)⟩

/-! ## Claim C6 -/

lemma renderSections_cons (s : PemSection) (secs : List PemSection) :
    renderSections (s :: secs) = renderLines (sectionLines s) ++ renderSections secs := by
  simp [renderSections, renderLines_append]

/-- One `read_one_from_slice` call on a rendered section list: a recognized
first section yields its item with the later sections as remainder; an
unrecognized first section is skipped inside the same call. -/
lemma read_one_sections (s : PemSection) (secs : List PemSection) (hwf : wfSection s) :
    read_one_from_slice (renderSections (s :: secs))
      = (match specItemFor s.label (bodyDerOf s) with
         | some item => .ok (some (item, renderSections secs))
         | none => read_one_from_slice (renderSections secs)) := by
  rw [renderSections_cons s secs]
  unfold read_one_from_slice
  exact sliceCall_section s hwf (renderSections secs)

lemma itemsSliceGo_sections :
    ∀ (secs : List PemSection) (fuel : Nat), (∀ s ∈ secs, wfSection s) →
      secs.length < fuel →
      itemsSliceGo fuel (renderSections secs) = (expectedItems secs, .eof) := by
  intro secs
  induction secs with
  | nil =>
    intro fuel _ hf
    cases fuel with
    | zero => omega
    | succ f => rfl
  | cons s secs ih =>
    intro fuel hwf hf
    cases fuel with
    | zero => simp at hf
    | succ f =>
      have hws := hwf s (List.mem_cons_self s secs)
      have hrest : ∀ x ∈ secs, wfSection x := fun x hx => hwf x (List.mem_cons_of_mem s hx)
      cases hit : specItemFor s.label (bodyDerOf s) with
      | some item =>
        have h1 : read_one_from_slice (renderSections (s :: secs))
            = .ok (some (item, renderSections secs)) := by
          rw [read_one_sections s secs hws, hit]
        simp only [itemsSliceGo, h1]
        rw [ih f hrest (by simp only [List.length_cons] at hf; omega)]
        simp [expectedItems, List.filterMap_cons, hit]
      | none =>
        have h1 : read_one_from_slice (renderSections (s :: secs))
            = read_one_from_slice (renderSections secs) := by
          rw [read_one_sections s secs hws, hit]
        have h2 : itemsSliceGo (f + 1) (renderSections (s :: secs))
            = itemsSliceGo (f + 1) (renderSections secs) := by
          simp only [itemsSliceGo, h1]
        rw [h2, ih (f + 1) hrest (by simp only [List.length_cons] at hf; omega)]
        simp [expectedItems, List.filterMap_cons, hit]

lemma length_le_renderSections (secs : List PemSection) :
    secs.length ≤ (renderSections secs).length := by
  induction secs with
  | nil => simp [renderSections, renderLines]
  | cons s secs ih =>
    rw [renderSections_cons, List.length_append]
    have h1 : 1 ≤ (renderLines (sectionLines s)).length := by
      rw [sectionLines, renderLines_cons]
      simp only [List.length_append, List.length_cons]
      omega
    simp only [List.length_cons]
    omega

/-- C6: over a well-formed PEM input the item stream yields exactly one
item per recognized section, in file order, dispatched by label
(CERTIFICATE → X509Certificate, PUBLIC KEY → SubjectPublicKeyInfo,
RSA PRIVATE KEY → Pkcs1Key, PRIVATE KEY → Pkcs8Key, EC PRIVATE KEY →
Sec1Key, X509 CRL → Crl, CERTIFICATE REQUEST → Csr, per `specItemFor`);
well-formed sections with any other label contribute no item and no error,
and the stream ends in a clean eof. -/
theorem c6_item_per_recognized_section (secs : List PemSection)
    (hwf : ∀ s ∈ secs, wfSection s) :
    itemsSlice (renderSections secs) = (expectedItems secs, .eof) := by
  unfold itemsSlice
  exact itemsSliceGo_sections secs ((renderSections secs).length + 1) hwf
    (Nat.lt_succ_of_le (length_le_renderSections secs))

/-- Witness for C6: a recognized CERTIFICATE section, an unrecognized
TRUST ME section, and a recognized X509 CRL section yield exactly the
certificate and the CRL, in order. -/
theorem c6_item_per_recognized_section_witness :
    itemsSlice (renderSections
        [⟨bytesOf "CERTIFICATE", [bytesOf "QUJD"]⟩,
         ⟨bytesOf "TRUST ME", [bytesOf "QUJD"]⟩,
         ⟨bytesOf "X509 CRL", [bytesOf "QUJE"]⟩])
      = (expectedItems
          [⟨bytesOf "CERTIFICATE", [bytesOf "QUJD"]⟩,
           ⟨bytesOf "TRUST ME", [bytesOf "QUJD"]⟩,
           ⟨bytesOf "X509 CRL", [bytesOf "QUJE"]⟩], .eof)
    ∧ expectedItems
          [⟨bytesOf "CERTIFICATE", [bytesOf "QUJD"]⟩,
           ⟨bytesOf "TRUST ME", [bytesOf "QUJD"]⟩,
           ⟨bytesOf "X509 CRL", [bytesOf "QUJE"]⟩]
        = [.x509Certificate [65, 66, 67], .crl [65, 66, 68]] :=
  ⟨c6_item_per_recognized_section
      [⟨bytesOf "CERTIFICATE", [bytesOf "QUJD"]⟩,
       ⟨bytesOf "TRUST ME", [bytesOf "QUJD"]⟩,
       ⟨bytesOf "X509 CRL", [bytesOf "QUJE"]⟩] (by decide),
   by decide⟩

/-! ## Claim C4: decode results depend only on non-skipped bytes -/

lemma filterNS_nil (t : Nat → Code) : filterNS t [] = [] := rfl

lemma filterNS_cons_skip {t : Nat → Code} {b : Nat} (hb : t b = Code.skip)
    (r : List Nat) : filterNS t (b :: r) = filterNS t r := by
  simp [filterNS, hb]

lemma filterNS_cons_keep {t : Nat → Code} {b : Nat} (hb : ¬ t b = Code.skip)
    (r : List Nat) : filterNS t (b :: r) = b :: filterNS t r := by
  simp [filterNS, hb]

lemma simB_refl (x : BRes) : simB x x := by
  cases x <;> simp [simB]

/-- Only table-SKIP bytes classify as `skipped`. -/
lemma classify_skipped {t : Nat → Code} {b : Nat} {q : Quad} {st : St}
    (h : classify t b q st = .skipped) : t b = Code.skip := by
  unfold classify at h
  cases st with
  | data =>
    cases htb : t b with
    | skip => rfl
    | invalid =>
      rw [htb] at h
      dsimp only at h
      rcases hadd : q.add 128 with _ | q3 <;> rw [hadd] at h <;> dsimp only at h
      · cases h
      · split at h <;> cases h
    | pad =>
      rw [htb] at h
      dsimp only at h
      split at h <;> cases h
    | value v =>
      rw [htb] at h
      dsimp only at h
      rcases hadd : q.add v with _ | q3 <;> rw [hadd] at h <;> dsimp only at h
      · cases h
      · split at h <;> cases h
  | pad1 =>
    cases htb : t b with
    | skip => rfl
    | invalid => rw [htb] at h; cases h
    | value v => rw [htb] at h; cases h
    | pad =>
      rw [htb] at h
      dsimp only at h
      split at h <;> cases h
  | pad2 =>
    cases htb : t b with
    | skip => rfl
    | invalid => rw [htb] at h; cases h
    | value v => rw [htb] at h; cases h
    | pad => rw [htb] at h; cases h

lemma goU_skip_cons (t : Nat → Code) (last : Bool) {b : Nat} (hb : t b = Code.skip)
    (rest : List Nat) (i : Nat) (q : Quad) (st : St) (w : List Nat) :
    goU t last (b :: rest) i q st w = goU t last rest (i + 1) q st w := by
  rw [goU_step]
  have hcl : classify t b q st = .skipped := by
    unfold classify
    cases st <;> rw [hb]
  rw [hcl]

/-- The unbounded decoder loop gives similar results (equal up to error
offsets) on two inputs with the same non-skipped bytes, from any common
state. -/
lemma goU_filter_sim (t : Nat → Code) (last : Bool) :
    ∀ (n : Nat) (buf1 buf2 : List Nat) (i j : Nat) (q : Quad) (st : St) (w : List Nat),
      buf1.length + buf2.length ≤ n →
      filterNS t buf1 = filterNS t buf2 →
      simB (goU t last buf1 i q st w) (goU t last buf2 j q st w) := by
  intro n
  induction n with
  | zero =>
    intro buf1 buf2 i j q st w hlen _
    have h1 : buf1 = [] := List.length_eq_zero.mp (by omega)
    have h2 : buf2 = [] := List.length_eq_zero.mp (by
      have := List.length_eq_zero (l := buf2)
      omega)
    subst h1
    subst h2
    exact simB_refl _
  | succ n ih =>
    intro buf1 buf2 i j q st w hlen hf
    cases buf1 with
    | nil =>
      cases buf2 with
      | nil => exact simB_refl _
      | cons c r2 =>
        by_cases hc : t c = Code.skip
        · rw [goU_skip_cons t last hc]
          exact ih [] r2 i (j + 1) q st w
            (by simp only [List.length_nil, List.length_cons] at hlen ⊢; omega)
            (by rwa [filterNS_cons_skip hc] at hf)
        · rw [filterNS_nil, filterNS_cons_keep hc] at hf
          cases hf
    | cons b r1 =>
      by_cases hb : t b = Code.skip
      · rw [goU_skip_cons t last hb]
        exact ih r1 buf2 (i + 1) j q st w
          (by simp only [List.length_cons] at hlen ⊢; omega)
          (by rwa [filterNS_cons_skip hb] at hf)
      · cases buf2 with
        | nil =>
          rw [filterNS_nil, filterNS_cons_keep hb] at hf
          cases hf
        | cons c r2 =>
          by_cases hc : t c = Code.skip
          · rw [goU_skip_cons t last hc]
            exact ih (b :: r1) r2 i (j + 1) q st w
              (by simp only [List.length_cons] at hlen ⊢; omega)
              (by rwa [filterNS_cons_skip hc] at hf)
          · rw [filterNS_cons_keep hb, filterNS_cons_keep hc] at hf
            injection hf with hbc hfr
            subst hbc
            rw [goU_step t last b r1 i q st w, goU_step t last b r2 j q st w]
            cases hcl : classify t b q st with
            | skipped => exact absurd (classify_skipped hcl) hb
            | failed => exact ⟨rfl, rfl⟩
            | panicked => trivial
            | moved q2 st2 =>
              exact ih r1 r2 (i + 1) (j + 1) q2 st2 w
                (by simp only [List.length_cons] at hlen ⊢; omega) hfr
            | emitted q2 st2 =>
              exact ih r1 r2 (i + 1) (j + 1) (q2.convert).2 st2 (w ++ (q2.convert).1)
                (by simp only [List.length_cons] at hlen ⊢; omega) hfr

lemma decode_public_eq_decodeU (buf : List Nat) :
    decode_public buf = decodeU pemTable buf :=
  decode_estimate_eq_decodeU pemTable buf

/-- The PEM-tolerant decode gives similar results on two buffers with the
same non-skipped bytes. -/
lemma decode_public_sim (bufS bufT : List Nat)
    (hf : filterNS pemTable bufS = filterNS pemTable bufT) :
    simB (decode_public bufS) (decode_public bufT) := by
  rw [decode_public_eq_decodeU, decode_public_eq_decodeU]
  unfold decodeU
  exact goU_filter_sim pemTable true (bufS.length + bufT.length) bufS bufT 0 0
    Quad.new .data [] le_rfl hf

/-! ## Claim C4: one line with vs. without its LF terminator -/

/-- Appending the LF terminator does not change the trailer count of the
reverse scan, and when the count is positive the scan result is unchanged
entirely. -/
lemma beginTrailer_snoc10 (l : List Nat) :
    (beginTrailer (l ++ [10])).1 = (beginTrailer l).1
    ∧ ((beginTrailer l).1 ≠ 0 → beginTrailer (l ++ [10]) = beginTrailer l) := by
  unfold beginTrailer
  have hrev : (l ++ [10]).reverse = 10 :: l.reverse := by simp
  have hlen : (l ++ [10]).length = l.length + 1 := by simp
  rw [hrev, hlen]
  rw [show scanRev (10 :: l.reverse) (l.length + 1) 0 (l.length + 1)
      = scanRev l.reverse l.length 0 (l.length + 1) from by
    simp only [scanRev]
    rw [if_neg (by omega), if_pos (by norm_num)]
    norm_num]
  have hind := scanRev_pos_indep l.reverse l.length 0 (l.length + 1) l.length
  exact ⟨hind.1, fun h => hind.2 (by omega)⟩

/-- A line passing the BEGIN checks opens the section for the extracted
type, for any line. -/
lemma impl_begin_line (line : List Nat) (hb : beginMarker.isPrefixOf line = true)
    (h5 : (beginTrailer line).1 = 5) (sect : Option (List Nat × List Nat))
    (buf : List Nat) :
    read_one_impl (some line) sect buf
      = .ok (.cont, some ((line.take (beginTrailer line).2).drop 11,
          mkEndMarker ((line.take (beginTrailer line).2).drop 11)), buf) := by
  simp only [read_one_impl, hb, if_true]
  rw [if_neg (by rw [h5]; simp)]

/-- A line matching the BEGIN marker but failing the five-hyphen trailer
check is an illegal section start. -/
lemma impl_begin_bad (line : List Nat) (hb : beginMarker.isPrefixOf line = true)
    (h5 : (beginTrailer line).1 ≠ 5) (sect : Option (List Nat × List Nat))
    (buf : List Nat) :
    read_one_impl (some line) sect buf = .err (.illegalSectionStart line) := by
  simp only [read_one_impl, hb, if_true]
  rw [if_pos h5]

/-- Any line starting with the section's end marker closes the section. -/
lemma impl_end_line (ty em line buf : List Nat)
    (hb : beginMarker.isPrefixOf line = false) (he : em.isPrefixOf line = true) :
    read_one_impl (some line) (some (ty, em)) buf
      = (match decode_public buf with
         | .panic => .panic
         | .err e _ => .err (.base64Decode e)
         | .ok _ _ der =>
           match itemFor ty der with
           | some item => .ok (.brk (some item), some (ty, em), buf)
           | none => .ok (.cont, none, [])) := by
  simp only [read_one_impl, hb, Bool.false_eq_true, if_false, he, if_true,
    show decode_secret = decode_public from rfl, ite_self]

/-- A non-marker line outside any section is ignored. -/
lemma impl_junk (line buf : List Nat) (hb : beginMarker.isPrefixOf line = false) :
    read_one_impl (some line) none buf = .ok (.cont, none, buf) := by
  simp [read_one_impl, hb]

/-- One scanner step on a line without its LF terminator (the slice
reader) versus the same line with it (the stream reader): both panic, or
both fail with errors of the same kind, or both continue identically up to
LF-insertion in the body buffer. -/
lemma impl_sim (l : List Nat) (h10 : 10 ∉ l)
    (sect : Option (List Nat × List Nat)) (hsect : sectOk sect)
    (bufS bufT : List Nat) (hbuf : filterNS pemTable bufS = filterNS pemTable bufT) :
    (read_one_impl (some l) sect bufS = .panic
        ∧ read_one_impl (some (l ++ [10])) sect bufT = .panic)
    ∨ (∃ e1 e2, read_one_impl (some l) sect bufS = .err e1
        ∧ read_one_impl (some (l ++ [10])) sect bufT = .err e2
        ∧ e1.kind = e2.kind)
    ∨ (∃ fl s2 bS2 bT2, read_one_impl (some l) sect bufS = .ok (fl, s2, bS2)
        ∧ read_one_impl (some (l ++ [10])) sect bufT = .ok (fl, s2, bT2)
        ∧ sectOk s2 ∧ filterNS pemTable bS2 = filterNS pemTable bT2) := by
  have hsnoc := isPrefixOf_snoc beginMarker 10 (by decide) l
  by_cases hbm : beginMarker.isPrefixOf l = true
  · have hbmT : beginMarker.isPrefixOf (l ++ [10]) = true := by rw [hsnoc]; exact hbm
    obtain ⟨htr1, htr2⟩ := beginTrailer_snoc10 l
    by_cases h5 : (beginTrailer l).1 = 5
    · have heqt : beginTrailer (l ++ [10]) = beginTrailer l := htr2 (by omega)
      have hposlt : (beginTrailer l).2 + 1 ≤ l.length := by
        unfold beginTrailer
        exact scanRev_pos_lt l.reverse l.length 0 l.length
          (by rw [List.length_reverse]) (by unfold beginTrailer at h5; omega)
      have htake : (l ++ [10]).take (beginTrailer l).2 = l.take (beginTrailer l).2 :=
        List.take_append_of_le_length (by omega)
      have hty10 : 10 ∉ (l.take (beginTrailer l).2).drop 11 := fun hm =>
        h10 (List.mem_of_mem_take (List.mem_of_mem_drop hm))
      right; right
      refine ⟨.cont, some ((l.take (beginTrailer l).2).drop 11,
          mkEndMarker ((l.take (beginTrailer l).2).drop 11)), bufS, bufT,
        impl_begin_line l hbm h5 sect bufS, ?_, ten_not_mem_endMarker hty10, hbuf⟩
      rw [impl_begin_line (l ++ [10]) hbmT (by rw [heqt]; exact h5) sect bufT,
        heqt, htake]
    · right; left
      refine ⟨.illegalSectionStart l, .illegalSectionStart (l ++ [10]),
        impl_begin_bad l hbm h5 sect bufS,
        impl_begin_bad (l ++ [10]) hbmT (by rw [htr1]; exact h5) sect bufT, rfl⟩
  · have hbmF : beginMarker.isPrefixOf l = false := by
      cases hx : beginMarker.isPrefixOf l
      · rfl
      · exact absurd hx hbm
    have hbmTF : beginMarker.isPrefixOf (l ++ [10]) = false := by rw [hsnoc]; exact hbmF
    cases sect with
    | none =>
      right; right
      exact ⟨.cont, none, bufS, bufT, impl_junk l bufS hbmF,
        impl_junk (l ++ [10]) bufT hbmTF, trivial, hbuf⟩
    | some pr =>
      obtain ⟨ty, em⟩ := pr
      have hem10 : 10 ∉ em := hsect
      have hesnoc := isPrefixOf_snoc em 10 hem10 l
      by_cases he : em.isPrefixOf l = true
      · have heT : em.isPrefixOf (l ++ [10]) = true := by rw [hesnoc]; exact he
        have hS := impl_end_line ty em l bufS hbmF he
        have hT := impl_end_line ty em (l ++ [10]) bufT hbmTF heT
        have hsim := decode_public_sim bufS bufT hbuf
        cases hdS : decode_public bufS with
        | panic =>
          cases hdT : decode_public bufT with
          | panic =>
            rw [hdS] at hS
            rw [hdT] at hT
            exact Or.inl ⟨hS, hT⟩
          | err e2 w2 => rw [hdS, hdT] at hsim; cases hsim
          | ok q2 s2 w2 => rw [hdS, hdT] at hsim; cases hsim
        | err e1 w1 =>
          cases hdT : decode_public bufT with
          | panic => rw [hdS, hdT] at hsim; cases hsim
          | err e2 w2 =>
            rw [hdS] at hS
            rw [hdT] at hT
            exact Or.inr (Or.inl ⟨.base64Decode e1, .base64Decode e2, hS, hT, rfl⟩)
          | ok q2 s2 w2 => rw [hdS, hdT] at hsim; cases hsim
        | ok q1 s1 w1 =>
          cases hdT : decode_public bufT with
          | panic => rw [hdS, hdT] at hsim; cases hsim
          | err e2 w2 => rw [hdS, hdT] at hsim; cases hsim
          | ok q2 s2 w2 =>
            rw [hdS, hdT] at hsim
            obtain ⟨hq, hs, hw⟩ := hsim
            subst hw
            rw [hdS] at hS
            rw [hdT] at hT
            dsimp only at hS hT
            cases hit : itemFor ty w1 with
            | some item =>
              rw [hit] at hS hT
              exact Or.inr (Or.inr ⟨.brk (some item), some (ty, em), bufS, bufT,
                hS, hT, hsect, hbuf⟩)
            | none =>
              rw [hit] at hS hT
              exact Or.inr (Or.inr ⟨.cont, none, [], [], hS, hT, trivial, rfl⟩)
      · have heF : em.isPrefixOf l = false := by
          cases hx : em.isPrefixOf l
          · rfl
          · exact absurd hx he
        have heTF : em.isPrefixOf (l ++ [10]) = false := by rw [hesnoc]; exact heF
        right; right
        refine ⟨.cont, some (ty, em), bufS ++ l, bufT ++ (l ++ [10]),
          impl_body ty em l bufS hbmF heF,
          impl_body ty em (l ++ [10]) bufT hbmTF heTF, hsect, ?_⟩
        have h10skip : filterNS pemTable [10] = [] := rfl
        simp only [filterNS, List.filter_append] at hbuf ⊢
        rw [hbuf]
        simp [show pemTable 10 = Code.skip from rfl]

/-! ## Claim C4: the two reader loops over LF-rendered lines -/

/-- The slice loop and the stream loop over the same rendered lines, from
related states: both panic, both fail with same-kind errors, both stop
with no item, or both produce the same item with the same remaining
rendered lines. -/
lemma call_sim :
    ∀ (ls : List (List Nat)) (sect : Option (List Nat × List Nat)) (bufS bufT : List Nat),
      (∀ l ∈ ls, 10 ∉ l ∧ 13 ∉ l) → sectOk sect →
      filterNS pemTable bufS = filterNS pemTable bufT →
      (sliceCall (sliceSplits (renderLines ls)) sect bufS = .panic
          ∧ streamCall (streamSplits (renderLines ls)) sect bufT = .panic)
      ∨ (∃ e1 e2, sliceCall (sliceSplits (renderLines ls)) sect bufS = .err e1
          ∧ streamCall (streamSplits (renderLines ls)) sect bufT = .err e2
          ∧ e1.kind = e2.kind)
      ∨ (sliceCall (sliceSplits (renderLines ls)) sect bufS = .ok none
          ∧ ∃ rT, streamCall (streamSplits (renderLines ls)) sect bufT = .ok (none, rT))
      ∨ (∃ item k, 1 ≤ k ∧ k ≤ ls.length
          ∧ sliceCall (sliceSplits (renderLines ls)) sect bufS
              = .ok (some (item, renderLines (ls.drop k)))
          ∧ streamCall (streamSplits (renderLines ls)) sect bufT
              = .ok (some item, renderLines (ls.drop k))) := by
  intro ls
  induction ls with
  | nil =>
    intro sect bufS bufT _ hsect _
    cases sect with
    | none =>
      right; right; left
      exact ⟨rfl, [], rfl⟩
    | some pr =>
      obtain ⟨ty, em⟩ := pr
      right; left
      exact ⟨.missingSectionEnd em, .missingSectionEnd em, rfl, rfl, rfl⟩
  | cons l ls ih =>
    intro sect bufS bufT hls hsect hbuf
    obtain ⟨h10, h13⟩ := hls l (List.mem_cons_self l ls)
    have hrest : ∀ x ∈ ls, 10 ∉ x ∧ 13 ∉ x := fun x hx => hls x (List.mem_cons_of_mem l hx)
    rw [renderLines_cons, sliceSplits_cons l _ h10, streamSplits_cons l _ h10 h13]
    simp only [sliceCall, streamCall]
    rcases impl_sim l h10 sect hsect bufS bufT hbuf with
      ⟨hS, hT⟩ | ⟨e1, e2, hS, hT, hk⟩ | ⟨fl, s2, bS2, bT2, hS, hT, hs2, hb2⟩
    · rw [hS, hT]
      exact Or.inl ⟨rfl, rfl⟩
    · rw [hS, hT]
      exact Or.inr (Or.inl ⟨e1, e2, rfl, rfl, hk⟩)
    · rw [hS, hT]
      cases fl with
      | brk item =>
        cases item with
        | none =>
          right; right; left
          exact ⟨rfl, renderLines ls, rfl⟩
        | some it =>
          right; right; right
          exact ⟨it, 1, le_rfl, by simp, rfl, rfl⟩
      | cont =>
        dsimp only
        rcases ih s2 bS2 bT2 hrest hs2 hb2 with
          ⟨hS2, hT2⟩ | ⟨e1, e2, hS2, hT2, hk⟩ | ⟨hS2, rT, hT2⟩ | ⟨item, k, hk1, hk2, hS2, hT2⟩
        · exact Or.inl ⟨hS2, hT2⟩
        · exact Or.inr (Or.inl ⟨e1, e2, hS2, hT2, hk⟩)
        · exact Or.inr (Or.inr (Or.inl ⟨hS2, rT, hT2⟩))
        · right; right; right
          refine ⟨item, k + 1, by omega, by simp only [List.length_cons]; omega, ?_, ?_⟩
          · rw [List.drop_succ_cons]
            exact hS2
          · rw [List.drop_succ_cons]
            exact hT2

lemma length_le_renderLines (ls : List (List Nat)) :
    ls.length ≤ (renderLines ls).length := by
  induction ls with
  | nil => simp [renderLines]
  | cons l ls ih =>
    rw [renderLines_cons]
    simp only [List.length_cons, List.length_append]
    omega

/-- The two item streams over the same rendered lines agree on the items
and on how they stop, given enough fuel on each side. -/
lemma items_sim :
    ∀ (n : Nat) (ls : List (List Nat)) (fuel1 fuel2 : Nat),
      ls.length ≤ n → (∀ l ∈ ls, 10 ∉ l ∧ 13 ∉ l) →
      ls.length < fuel1 → ls.length < fuel2 →
      (itemsSliceGo fuel1 (renderLines ls)).1 = (itemsStreamGo fuel2 (renderLines ls)).1
      ∧ (itemsSliceGo fuel1 (renderLines ls)).2.kind
          = (itemsStreamGo fuel2 (renderLines ls)).2.kind := by
  intro n
  induction n with
  | zero =>
    intro ls fuel1 fuel2 hn _ h1 h2
    have hnil : ls = [] := List.length_eq_zero.mp (by omega)
    subst hnil
    cases fuel1 with
    | zero => omega
    | succ f1 =>
      cases fuel2 with
      | zero => omega
      | succ f2 => exact ⟨rfl, rfl⟩
  | succ n ih =>
    intro ls fuel1 fuel2 hn hls h1 h2
    cases fuel1 with
    | zero => omega
    | succ f1 =>
      cases fuel2 with
      | zero => omega
      | succ f2 =>
        have hcall := call_sim ls none [] [] hls trivial rfl
        have hslice : read_one_from_slice (renderLines ls)
            = sliceCall (sliceSplits (renderLines ls)) none [] := rfl
        have hstream : read_one (renderLines ls)
            = streamCall (streamSplits (renderLines ls)) none [] := rfl
        rcases hcall with
          ⟨hS, hT⟩ | ⟨e1, e2, hS, hT, hk⟩ | ⟨hS, rT, hT⟩ | ⟨item, k, hk1, hk2, hS, hT⟩
        · rw [← hslice] at hS
          rw [← hstream] at hT
          simp only [itemsSliceGo, itemsStreamGo, hS, hT]
          refine ⟨?_, ?_⟩ <;> trivial
        · rw [← hslice] at hS
          rw [← hstream] at hT
          simp only [itemsSliceGo, itemsStreamGo, hS, hT]
          refine ⟨?_, ?_⟩ <;> trivial
        · rw [← hslice] at hS
          rw [← hstream] at hT
          simp only [itemsSliceGo, itemsStreamGo, hS, hT]
          refine ⟨?_, ?_⟩ <;> trivial
        · rw [← hslice] at hS
          rw [← hstream] at hT
          simp only [itemsSliceGo, itemsStreamGo, hS, hT]
          have hdrop : ∀ x ∈ ls.drop k, 10 ∉ x ∧ 13 ∉ x :=
            fun x hx => hls x (List.mem_of_mem_drop hx)
          have hrec := ih (ls.drop k) f1 f2
            (by rw [List.length_drop]; omega) hdrop
            (by rw [List.length_drop]; omega) (by rw [List.length_drop]; omega)
          exact ⟨by rw [hrec.1], hrec.2⟩

/-- C4 counterexample: on an input whose final END line has no trailing
newline, the slice reader never sees the END line (it only yields bytes
strictly before each LF) and fails with `MissingSectionEnd`, while the
stream reader (whose `read_until_newline` returns a final unterminated
chunk) yields the certificate and ends cleanly. -/
theorem c4_counterexample_no_final_newline :
    itemsSlice (bytesOf "-----BEGIN CERTIFICATE-----\nQUJD\n-----END CERTIFICATE-----")
      = ([], .errored (.missingSectionEnd (bytesOf "-----END CERTIFICATE-----")))
    ∧ itemsStream (bytesOf "-----BEGIN CERTIFICATE-----\nQUJD\n-----END CERTIFICATE-----")
      = ([.x509Certificate [65, 66, 67]], .eof) := by
  constructor
  · decide
  · decide

/-- C4 (amended): on inputs that are a sequence of LF-terminated lines
none of which contains a LF or CR, the slice-based reader and the
stream-based reader produce identical item sequences and stop the same
way (same `Terminal` constructor; error payloads can differ, e.g. an
`IllegalSectionStart` line is reported with vs. without its LF).  On
inputs whose last line is unterminated the two readers disagree (see the
counterexample). -/
theorem c4_slice_stream_agreement_amended (ls : List (List Nat))
    (hls : ∀ l ∈ ls, 10 ∉ l ∧ 13 ∉ l) :
    (itemsSlice (renderLines ls)).1 = (itemsStream (renderLines ls)).1
    ∧ (itemsSlice (renderLines ls)).2.kind = (itemsStream (renderLines ls)).2.kind := by
  unfold itemsSlice itemsStream
  exact items_sim ls.length ls ((renderLines ls).length + 1) ((renderLines ls).length + 1)
    le_rfl hls (Nat.lt_succ_of_le (length_le_renderLines ls))
    (Nat.lt_succ_of_le (length_le_renderLines ls))

/-- Witness for the amended C4: a certificate followed by junk and an
unrecognized section, all lines LF-terminated. -/
theorem c4_slice_stream_agreement_amended_witness :
    (itemsSlice (renderLines [beginLineFor (bytesOf "CERTIFICATE"), bytesOf "QUJD",
        mkEndMarker (bytesOf "CERTIFICATE"), bytesOf "junk",
        beginLineFor (bytesOf "OTHER"), mkEndMarker (bytesOf "OTHER")])).1
      = (itemsStream (renderLines [beginLineFor (bytesOf "CERTIFICATE"), bytesOf "QUJD",
          mkEndMarker (bytesOf "CERTIFICATE"), bytesOf "junk",
          beginLineFor (bytesOf "OTHER"), mkEndMarker (bytesOf "OTHER")])).1
    ∧ (itemsSlice (renderLines [beginLineFor (bytesOf "CERTIFICATE"), bytesOf "QUJD",
        mkEndMarker (bytesOf "CERTIFICATE"), bytesOf "junk",
        beginLineFor (bytesOf "OTHER"), mkEndMarker (bytesOf "OTHER")])).2.kind
      = (itemsStream (renderLines [beginLineFor (bytesOf "CERTIFICATE"), bytesOf "QUJD",
          mkEndMarker (bytesOf "CERTIFICATE"), bytesOf "junk",
          beginLineFor (bytesOf "OTHER"), mkEndMarker (bytesOf "OTHER")])).2.kind :=
  c4_slice_stream_agreement_amended
    [beginLineFor (bytesOf "CERTIFICATE"), bytesOf "QUJD",
     mkEndMarker (bytesOf "CERTIFICATE"), bytesOf "junk",
     beginLineFor (bytesOf "OTHER"), mkEndMarker (bytesOf "OTHER")] (by decide)

end Rustls
